import Mathlib

/-!
Verification of the stdio transport and composite proxy layer of the
`mcp-tunnel` package (`packages/mcp-tunnel/src/CompatStdioServerTransport.ts`).

Modelling conventions:
* Byte buffers are modelled as `List Char` (the UTF-8 decoded character
  stream); byte counts are recovered with `byteLength`, which sums the UTF-8
  encoded size of each character.  Byte offsets that the JavaScript code
  computes always fall on character boundaries in every behaviour the claims
  exercise; an offset landing inside a multi-byte character is modelled at the
  preceding character boundary.
* JavaScript strings created by `JSON.stringify` / consumed by `JSON.parse`
  are modelled with the `Json` type below; JSON numbers are modelled as exact
  integers (decimal fractions and exponents, whose semantics are IEEE-754
  floating point, are outside the model).
* Callback invocations (`onmessage`, `onerror`, `onclose`) are modelled as
  events appended to an output trace.
-/

namespace McpTunnel

/-- The ECMAScript white-space set used by `String.prototype.trim`,
`trimStart` and by `\s` in regular expressions: WhiteSpace ∪ LineTerminator. -/
def jsWs (c : Char) : Bool :=
  c == '\t' || c == '\n' || c == '\u000B' || c == '\u000C' || c == '\r' ||
  c == ' ' || c == ' ' || c == ' ' ||
  (' ' ≤ c && c ≤ ' ') ||
  c == ' ' || c == ' ' || c == ' ' || c == ' ' ||
  c == '　' || c == '﻿'

/-- Line terminators recognised by `^`/`$` in a JavaScript multiline regex. -/
def jsLineTerm (c : Char) : Bool :=
  c == '\n' || c == '\r' || c == ' ' || c == ' '

/-- Model of `String.prototype.trimStart`. -/
def jsTrimHead (s : List Char) : List Char := s.dropWhile jsWs

/-- Model of `String.prototype.trim`. -/
def jsTrim (s : List Char) : List Char :=
  ((s.dropWhile jsWs).reverse.dropWhile jsWs).reverse

/-- Model of `probe.replace` with the anchored BOM pattern: drop one
leading U+FEFF byte-order mark. -/
def stripBOM : List Char → List Char
  | '﻿' :: rest => rest
  | s => s

/-- Model of `.replace(/\r$/, '')`: drop one trailing carriage return. -/
def stripTrailingCR (s : List Char) : List Char :=
  match s.reverse with
  | c :: r => if c = '\r' then r.reverse else s
  | [] => s

/-- UTF-8 encoded size of one character (as `Buffer.byteLength` counts it). -/
def utf8Len (c : Char) : Nat :=
  if c.toNat < 0x80 then 1
  else if c.toNat < 0x800 then 2
  else if c.toNat < 0x10000 then 3
  else 4

/-- UTF-8 byte length of a character list (`Buffer.byteLength(s, 'utf8')`). -/
def byteLength (s : List Char) : Nat := (s.map utf8Len).sum

/-- Take characters from the front as long as they fit in a byte budget:
the model of slicing `n` bytes off the front of a UTF-8 buffer. -/
def takeBytes : Nat → List Char → List Char
  | _, [] => []
  | n, c :: rest =>
    if utf8Len c ≤ n then c :: takeBytes (n - utf8Len c) rest else []

/-- Drop the characters that `takeBytes` takes. -/
def dropBytes : Nat → List Char → List Char
  | _, [] => []
  | n, c :: rest =>
    if utf8Len c ≤ n then dropBytes (n - utf8Len c) rest else c :: rest

/-- First index at which `pat` occurs as a contiguous sublist
(model of `buffer.indexOf(pat)` for a multi-character search value). -/
def subIdx (pat : List Char) : List Char → Option Nat
  | [] => if pat.isEmpty then some 0 else none
  | c :: rest =>
    if pat.isPrefixOf (c :: rest) then some 0
    else (subIdx pat rest).map (· + 1)

/-- The two wire framings spoken by `CompatStdioServerTransport`. -/
inductive FramingMode where
  | contentLength
  | newline
deriving DecidableEq, Repr

/-- Model of `CompatStdioServerTransport.detectFramingMode` (source lines
86–105): probe the UTF-8 text of the buffered bytes; a `Content-Length:`
token after BOM/white-space stripping selects content-length framing, an
absent newline defers detection, and otherwise the first line of the raw
probe decides between newline framing (JSON-looking line) and the
content-length fallback. -/
def detectFramingMode (buffer : List Char) : Option FramingMode :=
  let probe := buffer
  let trimmed := jsTrimHead (stripBOM probe)
  if "Content-Length:".data.isPrefixOf trimmed then some .contentLength
  else
    match probe.findIdx? (· == '\n') with
    | none => none
    | some newlineIndex =>
      let firstLine := jsTrim (stripTrailingCR (probe.take newlineIndex))
      match firstLine with
      | '{' :: _ => some .newline
      | '[' :: _ => some .newline
      | _ => some .contentLength

/-- The detection algorithm exactly as the claim words it: the first line
examined in the third step is taken from the BOM-and-white-space-stripped
text rather than from the raw buffered text. -/
def detectFramingModeClaim (buffer : List Char) : Option FramingMode :=
  let stripped := jsTrimHead (stripBOM buffer)
  if "Content-Length:".data.isPrefixOf stripped then some .contentLength
  else if '\n' ∈ buffer then
    match jsTrim (stripTrailingCR (stripped.takeWhile (fun c => !(c == '\n')))) with
    | '{' :: _ => some .newline
    | '[' :: _ => some .newline
    | _ => some .contentLength
  else none

/-- The detection algorithm as amended: identical to the claim's wording
except that the first line is the prefix of the raw buffered text before its
first newline, not of the stripped text. -/
def detectFramingModeAmended (buffer : List Char) : Option FramingMode :=
  let stripped := jsTrimHead (stripBOM buffer)
  if "Content-Length:".data.isPrefixOf stripped then some .contentLength
  else if '\n' ∈ buffer then
    match jsTrim (stripTrailingCR (buffer.takeWhile (fun c => !(c == '\n')))) with
    | '{' :: _ => some .newline
    | '[' :: _ => some .newline
    | _ => some .contentLength
  else none

theorem findIdx?_eq_none_of_not_mem {a : Char} :
    ∀ l : List Char, a ∉ l → l.findIdx? (· == a) = none := by
  intro l h
  rw [List.findIdx?_eq_none_iff]
  intro c hc
  simp only [beq_eq_false_iff_ne, ne_eq]
  rintro rfl
  exact h hc

theorem findIdx?_isSome_of_mem {a : Char} :
    ∀ l : List Char, a ∈ l → ∃ i, l.findIdx? (· == a) = some i := by
  intro l h
  cases hf : l.findIdx? (· == a) with
  | none =>
    exfalso
    rw [List.findIdx?_eq_none_iff] at hf
    have hfa := hf a h
    simp at hfa
  | some i => exact ⟨i, rfl⟩

theorem findIdx?_take_eq_takeWhile {p : Char → Bool} :
    ∀ (l : List Char) (i : Nat), l.findIdx? p = some i →
      l.take i = l.takeWhile (fun c => !p c) := by
  intro l
  induction l with
  | nil => intro i h; simp [List.findIdx?] at h
  | cons c rest ih =>
    intro i h
    rw [List.findIdx?_cons] at h
    by_cases hp : p c
    · rw [if_pos hp] at h
      cases h
      simp [List.takeWhile_cons, hp]
    · rw [if_neg hp, List.findIdx?_succ, Option.map_eq_some'] at h
      obtain ⟨j, hj, hji⟩ := h
      subst hji
      simp only [List.take_succ_cons, List.takeWhile_cons, hp]
      simp only [Bool.not_false, if_pos]
      rw [ih j hj]

/-- C1 is refuted by the buffer `"\n{\n"`: the code takes the first line
from the raw probe (empty, selecting content-length), while the claim's
algorithm takes it from the stripped text (`{`, selecting newline). -/
theorem c1_counterexample :
    detectFramingMode "\n\x7b\n".data = some .contentLength ∧
    detectFramingModeClaim "\n\x7b\n".data = some .newline := by
  constructor <;> rfl

/-- C1 (amended): framing-mode detection follows the claim's algorithm with
the first line taken from the raw buffered text: a stripped prefix of
`Content-Length:` selects content-length mode, a buffer with no newline
defers detection, and otherwise the trimmed first raw line selects newline
mode exactly when it starts with `{` or `[`. -/
theorem c1_detect_follows_amended_algorithm :
    ∀ buffer : List Char, detectFramingMode buffer = detectFramingModeAmended buffer := by
  intro buffer
  unfold detectFramingMode detectFramingModeAmended
  by_cases hcl : "Content-Length:".data.isPrefixOf (jsTrimHead (stripBOM buffer))
  · simp [hcl]
  · simp only [hcl, Bool.false_eq_true, if_false]
    by_cases hmem : '\n' ∈ buffer
    · obtain ⟨i, hi⟩ := findIdx?_isSome_of_mem buffer hmem
      simp only [hi, if_pos hmem, findIdx?_take_eq_takeWhile buffer i hi]
    · simp only [findIdx?_eq_none_of_not_mem buffer hmem, if_neg hmem]

/-! ### JSON values

`JSON.stringify` / `JSON.parse` are modelled over the `Json` type below.
Numbers are modelled as exact integers: decimal fractions and exponents
(IEEE-754 floating point in JavaScript) are outside the model. -/

mutual

inductive Json where
  | null
  | bool (b : Bool)
  | num (n : Int)
  | str (s : List Char)
  | arr (items : JsonItems)
  | obj (fields : JsonFields)
deriving DecidableEq

inductive JsonItems where
  | nil
  | cons (hd : Json) (tl : JsonItems)
deriving DecidableEq

inductive JsonFields where
  | nil
  | cons (key : List Char) (val : Json) (tl : JsonFields)
deriving DecidableEq

end

mutual

def sizeJson : Json → Nat
  | .null => 1
  | .bool _ => 1
  | .num _ => 1
  | .str _ => 1
  | .arr items => sizeItems items + 1
  | .obj fields => sizeFields fields + 1

def sizeItems : JsonItems → Nat
  | .nil => 0
  | .cons v tl => sizeJson v + sizeItems tl + 1

def sizeFields : JsonFields → Nat
  | .nil => 0
  | .cons _ v tl => sizeJson v + sizeFields tl + 1

end

/-- The decimal digit characters. -/
def digitChar : Nat → Char
  | 0 => '0' | 1 => '1' | 2 => '2' | 3 => '3' | 4 => '4'
  | 5 => '5' | 6 => '6' | 7 => '7' | 8 => '8' | 9 => '9'
  | _ => '0'

/-- Decimal digits of a natural number, most significant first. -/
def natDigits (n : Nat) : List Char :=
  if n < 10 then [digitChar n]
  else natDigits (n / 10) ++ [digitChar (n % 10)]
termination_by n
decreasing_by exact Nat.div_lt_self (by omega) (by omega)

/-- Numeric value of a decimal digit string (left fold, as `Number` reads it). -/
def digitsValAux (acc : Nat) : List Char → Nat
  | [] => acc
  | c :: rest => digitsValAux (acc * 10 + (c.toNat - 48)) rest

def digitsVal (ds : List Char) : Nat := digitsValAux 0 ds

/-- Decimal text of an integer, as `JSON.stringify` prints integral numbers. -/
def intChars (i : Int) : List Char :=
  if i < 0 then '-' :: natDigits i.natAbs else natDigits i.natAbs

/-- Lower-case hexadecimal digit characters. -/
def hexDigitChar : Nat → Char
  | 0 => '0' | 1 => '1' | 2 => '2' | 3 => '3' | 4 => '4'
  | 5 => '5' | 6 => '6' | 7 => '7' | 8 => '8' | 9 => '9'
  | 10 => 'a' | 11 => 'b' | 12 => 'c' | 13 => 'd' | 14 => 'e' | 15 => 'f'
  | _ => '0'

/-- How `JSON.stringify` escapes one character inside a string literal. -/
def escapeChar (c : Char) : List Char :=
  if c = '"' then ['\\', '"']
  else if c = '\\' then ['\\', '\\']
  else if c = '\u0008' then ['\\', 'b']
  else if c = '\t' then ['\\', 't']
  else if c = '\n' then ['\\', 'n']
  else if c = '\u000C' then ['\\', 'f']
  else if c = '\r' then ['\\', 'r']
  else if c.toNat < 0x20 then
    ['\\', 'u', '0', '0', hexDigitChar (c.toNat / 16), hexDigitChar (c.toNat % 16)]
  else [c]

def escapeStr : List Char → List Char
  | [] => []
  | c :: rest => escapeChar c ++ escapeStr rest

/-! Model of `JSON.stringify` (no indentation): the exact character stream
the transport writes for a message. -/

mutual

def serializeJson : Json → List Char
  | .null => "null".data
  | .bool true => "true".data
  | .bool false => "false".data
  | .num i => intChars i
  | .str s => '"' :: (escapeStr s ++ ['"'])
  | .arr items => '[' :: serializeItems items
  | .obj fields => '{' :: serializeFields fields

def serializeItems : JsonItems → List Char
  | .nil => [']']
  | .cons v .nil => serializeJson v ++ [']']
  | .cons v tl => serializeJson v ++ ',' :: serializeItems tl

def serializeFields : JsonFields → List Char
  | .nil => ['}']
  | .cons k v .nil => '"' :: (escapeStr k ++ '"' :: ':' :: (serializeJson v ++ ['}']))
  | .cons k v tl => '"' :: (escapeStr k ++ '"' :: ':' :: (serializeJson v ++ ',' :: serializeFields tl))

end

/-- JSON inter-token white space (RFC 8259): space, tab, LF, CR. -/
def jsonWs (c : Char) : Bool := c == ' ' || c == '\t' || c == '\n' || c == '\r'

def skipWs : List Char → List Char
  | [] => []
  | c :: rest => if jsonWs c then skipWs rest else c :: rest

def hexVal (c : Char) : Option Nat :=
  if '0' ≤ c ∧ c ≤ '9' then some (c.toNat - 48)
  else if 'a' ≤ c ∧ c ≤ 'f' then some (c.toNat - 87)
  else if 'A' ≤ c ∧ c ≤ 'F' then some (c.toNat - 55)
  else none

/-- Single-character escapes accepted by `JSON.parse`. -/
def unescapeChar (e : Char) : Option Char :=
  if e = '"' then some '"'
  else if e = '\\' then some '\\'
  else if e = '/' then some '/'
  else if e = 'b' then some '\u0008'
  else if e = 'f' then some '\u000C'
  else if e = 'n' then some '\n'
  else if e = 'r' then some '\r'
  else if e = 't' then some '\t'
  else none

/-- Parse a JSON string body after the opening quote, returning the decoded
characters and the input after the closing quote. -/
def parseStringBody : List Char → Option (List Char × List Char)
  | [] => none
  | c :: rest =>
    if c = '"' then some ([], rest)
    else if c = '\\' then
      match rest with
      | [] => none
      | e :: r1 =>
        if e = 'u' then
          match r1 with
          | h1 :: h2 :: h3 :: h4 :: r =>
            match hexVal h1, hexVal h2, hexVal h3, hexVal h4 with
            | some a, some b, some c2, some d =>
              (parseStringBody r).map
                (fun p => (Char.ofNat (((a * 16 + b) * 16 + c2) * 16 + d) :: p.1, p.2))
            | _, _, _, _ => none
          | _ => none
        else
          match unescapeChar e with
          | some ch => (parseStringBody r1).map (fun p => (ch :: p.1, p.2))
          | none => none
    else if c.toNat < 0x20 then none
    else (parseStringBody rest).map (fun p => (c :: p.1, p.2))

/-- Parse a JSON integer literal (digits after an optional sign), enforcing
the no-leading-zero rule.  The caller handles the sign. -/
def parseNatDigits : List Char → Option (Nat × List Char)
  | [] => none
  | c :: rest =>
    if c.isDigit then
      let ds := rest.takeWhile Char.isDigit
      let tail := rest.drop ds.length
      if c = '0' ∧ ds ≠ [] then none
      else some (digitsVal (c :: ds), tail)
    else none

/-! Recursive-descent parser for the JSON fragment of the model, structural
on a fuel counter (one unit per grammar production step). -/

mutual

def parseValue : Nat → List Char → Option (Json × List Char)
  | 0, _ => none
  | fuel + 1, s =>
    match s with
    | [] => none
    | c :: rest =>
      if c = 'n' then
        match rest with
        | c1 :: c2 :: c3 :: r =>
          if c1 = 'u' ∧ c2 = 'l' ∧ c3 = 'l' then some (.null, r) else none
        | _ => none
      else if c = 't' then
        match rest with
        | c1 :: c2 :: c3 :: r =>
          if c1 = 'r' ∧ c2 = 'u' ∧ c3 = 'e' then some (.bool true, r) else none
        | _ => none
      else if c = 'f' then
        match rest with
        | c1 :: c2 :: c3 :: c4 :: r =>
          if c1 = 'a' ∧ c2 = 'l' ∧ c3 = 's' ∧ c4 = 'e' then some (.bool false, r) else none
        | _ => none
      else if c = '"' then (parseStringBody rest).map (fun p => (.str p.1, p.2))
      else if c = '[' then
        let r := skipWs rest
        if r.head? = some ']' then some (.arr .nil, r.tail)
        else (parseItems fuel r).map (fun p => (.arr p.1, p.2))
      else if c = '{' then
        let r := skipWs rest
        if r.head? = some '}' then some (.obj .nil, r.tail)
        else (parseFields fuel r).map (fun p => (.obj p.1, p.2))
      else if c = '-' then (parseNatDigits rest).map (fun p => (.num (-(p.1 : Int)), p.2))
      else if c.isDigit then (parseNatDigits (c :: rest)).map (fun p => (.num (p.1 : Int), p.2))
      else none

def parseItems : Nat → List Char → Option (JsonItems × List Char)
  | 0, _ => none
  | fuel + 1, s =>
    match parseValue fuel s with
    | none => none
    | some (v, r) =>
      let r2 := skipWs r
      if r2.head? = some ',' then
        (parseItems fuel (skipWs r2.tail)).map (fun p => (.cons v p.1, p.2))
      else if r2.head? = some ']' then some (.cons v .nil, r2.tail)
      else none

def parseFields : Nat → List Char → Option (JsonFields × List Char)
  | 0, _ => none
  | fuel + 1, s =>
    match s with
    | [] => none
    | c :: rest =>
      if c = '"' then
      match parseStringBody rest with
      | none => none
      | some (k, r1) =>
        let r2 := skipWs r1
        if r2.head? = some ':' then
          match parseValue fuel (skipWs r2.tail) with
          | none => none
          | some (v, r3) =>
            let r4 := skipWs r3
            if r4.head? = some ',' then
              (parseFields fuel (skipWs r4.tail)).map (fun p => (.cons k v p.1, p.2))
            else if r4.head? = some '}' then some (.cons k v .nil, r4.tail)
            else none
        else none
      else none

end

/-- Model of `JSON.parse`: leading and trailing white space is allowed, any
other trailing characters are an error. -/
def jsonParse (s : List Char) : Option Json :=
  match parseValue (s.length + 1) (skipWs s) with
  | some (v, r) => if skipWs r = [] then some v else none
  | none => none

/-! ### Transport events and dispatch -/

/-- Callback invocations observable from the transport.  `message v` is an
`onmessage` call; `headerError h` is the `onerror` call built from
`Invalid MCP header: ${h}`; `parseError t` is the `onerror` call produced
when `JSON.parse` throws on the text `t` (the thrown `SyntaxError`'s message
text is host-defined, so the event is identified by the offending text);
`oncloseCall` is the evaluation of `this.onclose?.()`. -/
inductive TransportEvent where
  | message (v : Json)
  | headerError (headerText : List Char)
  | parseError (text : List Char)
  | oncloseCall
deriving DecidableEq

/-- Model of `CompatStdioServerTransport.dispatchJsonLine` (lines 154–163):
parse the text as JSON and emit `onmessage` on success, `onerror` on
failure; the error never halts processing. -/
def dispatchJsonLine (line : List Char) : TransportEvent :=
  match jsonParse line with
  | some v => .message v
  | none => .parseError line

/-- ASCII lower-casing, the canonicalisation applied by the regex `i` flag
to the literal header token (no `u` flag, so only ASCII letters fold). -/
def toLowerAscii (c : Char) : Char :=
  if 'A' ≤ c ∧ c ≤ 'Z' then Char.ofNat (c.toNat + 32) else c

/-- One attempt of the header regex `^Content-Length:\s*(\d+)$` at the start
of `s`: the case-folded token, a greedy white-space run, a non-empty digit
run, then a line boundary. -/
def tryHeaderHere (s : List Char) : Option Nat :=
  let tok := "content-length:".data
  if tok.isPrefixOf (s.map toLowerAscii) then
    let rest := s.drop tok.length
    let rest2 := rest.drop (rest.takeWhile jsWs).length
    let digits := rest2.takeWhile Char.isDigit
    let after := rest2.drop digits.length
    if digits.isEmpty then none
    else
      match after with
      | [] => some (digitsVal digits)
      | c :: _ => if jsLineTerm c then some (digitsVal digits) else none
  else none

/-- Scan the positions after each line terminator, left to right. -/
def tryHeaderTail : List Char → Option Nat
  | [] => none
  | c :: rest =>
    if jsLineTerm c then
      match tryHeaderHere rest with
      | some n => some n
      | none => tryHeaderTail rest
    else tryHeaderTail rest

/-- Model of `/^Content-Length:\s*(\d+)$/im.exec(headerText)`, returning the
captured digits' numeric value of the first (earliest-position) match. -/
def execHeaderRegex (s : List Char) : Option Nat :=
  match tryHeaderHere s with
  | some n => some n
  | none => tryHeaderTail s

/-- Delimiter search of the content-length decode loop (lines 124–132):
`\r\n\r\n` wherever it occurs, else `\n\n`, with the delimiter length. -/
def delimSearch (buffer : List Char) : Option (Nat × Nat) :=
  match subIdx "\r\n\r\n".data buffer with
  | some i => some (i, 4)
  | none =>
    match subIdx "\n\n".data buffer with
    | some i => some (i, 2)
    | none => none

theorem subIdx_bound {pat : List Char} :
    ∀ (l : List Char) (i : Nat), subIdx pat l = some i → i + pat.length ≤ l.length := by
  intro l
  induction l with
  | nil =>
    intro i h
    unfold subIdx at h
    by_cases hp : pat.isEmpty
    · rw [if_pos hp] at h
      cases h
      simp [List.isEmpty_iff.mp hp]
    · rw [if_neg hp] at h
      cases h
  | cons c rest ih =>
    intro i h
    unfold subIdx at h
    by_cases hp : pat.isPrefixOf (c :: rest)
    · rw [if_pos hp] at h
      cases h
      have := (List.isPrefixOf_iff_prefix.mp hp).length_le
      simpa using this
    · rw [if_neg hp, Option.map_eq_some'] at h
      obtain ⟨j, hj, hji⟩ := h
      subst hji
      have := ih j hj
      simp only [List.length_cons]
      omega

theorem delimSearch_bound {l : List Char} {i dl : Nat} :
    delimSearch l = some (i, dl) → i + dl ≤ l.length ∧ 2 ≤ dl := by
  intro h
  unfold delimSearch at h
  cases h4 : subIdx "\r\n\r\n".data l with
  | some j =>
    rw [h4] at h
    simp only [Option.some.injEq, Prod.mk.injEq] at h
    obtain ⟨h1, h2⟩ := h
    subst h1
    subst h2
    have hb := subIdx_bound l j h4
    have hlen : ("\r\n\r\n".data.length) = 4 := rfl
    rw [hlen] at hb
    exact ⟨hb, by omega⟩
  | none =>
    rw [h4] at h
    cases h2 : subIdx "\n\n".data l with
    | some j =>
      rw [h2] at h
      simp only [Option.some.injEq, Prod.mk.injEq] at h
      obtain ⟨ha, hb2⟩ := h
      subst ha
      subst hb2
      have hb := subIdx_bound l j h2
      have hlen : ("\n\n".data.length) = 2 := rfl
      rw [hlen] at hb
      exact ⟨hb, by omega⟩
    | none => rw [h2] at h; cases h

theorem dropBytes_length_le : ∀ (n : Nat) (l : List Char), (dropBytes n l).length ≤ l.length := by
  intro n l
  induction l generalizing n with
  | nil => simp [dropBytes]
  | cons c rest ih =>
    unfold dropBytes
    by_cases hc : utf8Len c ≤ n
    · rw [if_pos hc]
      exact le_trans (ih _) (by simp)
    · rw [if_neg hc]

theorem findIdx?_some_lt_length {p : Char → Bool} :
    ∀ (l : List Char) (i : Nat), l.findIdx? p = some i → i < l.length := by
  intro l
  induction l with
  | nil => intro i h; simp [List.findIdx?] at h
  | cons c rest ih =>
    intro i h
    rw [List.findIdx?_cons] at h
    by_cases hp : p c
    · rw [if_pos hp] at h
      cases h
      simp
    · rw [if_neg hp, List.findIdx?_succ, Option.map_eq_some'] at h
      obtain ⟨j, hj, hji⟩ := h
      subst hji
      have := ih j hj
      simp only [List.length_cons]
      omega

/-- Model of `CompatStdioServerTransport.processNewlineBuffer` (lines
107–120): split off each `\n`-terminated line, strip a trailing `\r`, trim,
skip empty lines, dispatch the rest. -/
def processNewlineBuffer (buffer : List Char) : List Char × List TransportEvent :=
  match h : buffer.findIdx? (· == '\n') with
  | none => (buffer, [])
  | some i =>
    let line := jsTrim (stripTrailingCR (buffer.take i))
    let rest := buffer.drop (i + 1)
    if line.isEmpty then processNewlineBuffer rest
    else
      let p := processNewlineBuffer rest
      (p.1, dispatchJsonLine line :: p.2)
termination_by buffer.length
decreasing_by
  all_goals
    have hlt := findIdx?_some_lt_length buffer i h
    simp only [List.length_drop]
    omega

/-- Model of `CompatStdioServerTransport.processContentLengthBuffer` (lines
122–152): find a header block, parse its `Content-Length` header, report
invalid headers and keep going, wait when the body is incomplete, otherwise
dispatch exactly the announced body and continue past it. -/
def processContentLengthBuffer (buffer : List Char) : List Char × List TransportEvent :=
  match h : delimSearch buffer with
  | none => (buffer, [])
  | some (headerEnd, delimiterLength) =>
    let headerText := buffer.take headerEnd
    match execHeaderRegex headerText with
    | none =>
      let p := processContentLengthBuffer (buffer.drop (headerEnd + delimiterLength))
      (p.1, .headerError headerText :: p.2)
    | some contentLength =>
      let bodyRest := buffer.drop (headerEnd + delimiterLength)
      if byteLength bodyRest < contentLength then (buffer, [])
      else
        let p := processContentLengthBuffer (dropBytes contentLength bodyRest)
        (p.1, dispatchJsonLine (takeBytes contentLength bodyRest) :: p.2)
termination_by buffer.length
decreasing_by
  all_goals have hb := delimSearch_bound h
  · simp only [List.length_drop]
    omega
  · have hd := dropBytes_length_le contentLength (buffer.drop (headerEnd + delimiterLength))
    simp only [List.length_drop] at hd ⊢
    omega

/-! ### The transport state machine -/

/-- The mutable state of one `CompatStdioServerTransport` instance:
the `started` guard, whether the stdin listeners are attached, the
detected framing mode and the byte buffer. -/
structure TransportState where
  started : Bool
  listening : Bool
  framingMode : Option FramingMode
  buffer : List Char
deriving DecidableEq

def initTransport : TransportState :=
  { started := false, listening := false, framingMode := none, buffer := [] }

def processBuffer (mode : FramingMode) (buffer : List Char) : List Char × List TransportEvent :=
  match mode with
  | .contentLength => processContentLengthBuffer buffer
  | .newline => processNewlineBuffer buffer

/-- Model of the `handleData` listener (lines 65–80): append the chunk,
detect the framing mode only while it is unset, then decode per mode. -/
def handleData (s : TransportState) (chunk : List Char) : TransportState × List TransportEvent :=
  let buf := s.buffer ++ chunk
  match s.framingMode with
  | some mode =>
    let p := processBuffer mode buf
    ({ s with buffer := p.1 }, p.2)
  | none =>
    match detectFramingMode buf with
    | none => ({ s with buffer := buf }, [])
    | some mode =>
      let p := processBuffer mode buf
      ({ s with framingMode := some mode, buffer := p.1 }, p.2)

/-- Deliver a sequence of chunks. -/
def runChunks (s : TransportState) : List (List Char) → TransportState
  | [] => s
  | chunk :: rest => runChunks (handleData s chunk).1 rest

/-- The error thrown by a second `start()`
(`new Error('CompatStdioServerTransport already started')`). -/
inductive StartError where
  | alreadyStarted
deriving DecidableEq

/-- Model of `start()` (lines 30–37): guard on `started`, set it, attach the
stdin listeners. -/
def start (s : TransportState) : Except StartError TransportState :=
  if s.started then .error .alreadyStarted
  else .ok { s with started := true, listening := true }

/-- Model of `close()` (lines 55–63): detach the stdin listeners, clear the
buffer, and evaluate `this.onclose?.()`.  Nothing guards re-entry and
`started` is left untouched. -/
def close (s : TransportState) : TransportState × List TransportEvent :=
  ({ s with listening := false, buffer := [] }, [.oncloseCall])

/-- Model of the encoder in `send()` (lines 39–44): newline framing appends
`\n`; any other state (including no mode yet) uses Content-Length framing
with the UTF-8 byte length of the payload. -/
def encodeMsg (mode : Option FramingMode) (m : Json) : List Char :=
  let payload := serializeJson m
  match mode with
  | some .newline => payload ++ ['\n']
  | _ => "Content-Length: ".data ++ natDigits (byteLength payload) ++ "\r\n\r\n".data ++ payload

/-- Settlement of the promise constructed in `send()` (lines 46–52). -/
inductive SendSettle where
  | resolvedOnWrite
  | resolvedOnDrain
  | rejected (e : List Char)
deriving DecidableEq

/-- Model of the `send()` promise executor: resolve immediately when
`stdout.write` accepted the chunk, else resolve on the next `drain`; the
executor has no reject path. -/
def sendPromise (writeAccepted : Bool) : SendSettle :=
  if writeAccepted then .resolvedOnWrite else .resolvedOnDrain

/-- Model of `send()` as observed by the caller: the bytes written and the
promise settlement; `send` consults no lifecycle flag and emits no
`onerror` events. -/
def send (s : TransportState) (m : Json) (writeAccepted : Bool) :
    (List Char × SendSettle) × List TransportEvent :=
  ((encodeMsg s.framingMode m, sendPromise writeAccepted), [])

/-- Stream listeners the transport installs; `start` attaches exactly the
stdin pair (lines 35–36) and nothing ever subscribes to stdout events. -/
inductive StreamListener where
  | stdinData
  | stdinError
  | stdoutError
deriving DecidableEq

def startListeners : List StreamListener := [.stdinData, .stdinError]

/-! ### The composite proxy

`CompositeMcpServerProxy` (same source file, lines 172–236) fans each
registration out to its `StdioMcpServerProxy` and then its
`TunnelMcpServerProxy`.  The two underlying proxies' own implementations
are not part of this repository snapshot; their registries and the
behaviour of their `registerX`/`close` members are modelled from the spec
(§4.3): registration under an already-used name throws synchronously and
registers nothing, and `close()` may reject. -/

inductive Capability where
  | tool
  | prompt
  | resource
deriving DecidableEq

/-- Modelled from the spec: a single-transport proxy's capability registry,
one name list per capability kind. -/
structure ProxyRegistry where
  tools : List (List Char)
  prompts : List (List Char)
  resources : List (List Char)
deriving DecidableEq

def emptyRegistry : ProxyRegistry := { tools := [], prompts := [], resources := [] }

def capNames (k : Capability) (reg : ProxyRegistry) : List (List Char) :=
  match k with
  | .tool => reg.tools
  | .prompt => reg.prompts
  | .resource => reg.resources

/-- The duplicate-name error a single-transport proxy throws. -/
inductive RegistrationError where
  | duplicateName
deriving DecidableEq

/-- Modelled from the spec: `registerTool`/`registerPrompt`/`registerResource`
on a single-transport proxy — fail fast on a duplicate name, otherwise
append the entry. -/
def registerCap (k : Capability) (reg : ProxyRegistry) (name : List Char) :
    Except RegistrationError ProxyRegistry :=
  if name ∈ capNames k reg then .error .duplicateName
  else
    match k with
    | .tool => .ok { reg with tools := reg.tools ++ [name] }
    | .prompt => .ok { reg with prompts := reg.prompts ++ [name] }
    | .resource => .ok { reg with resources := reg.resources ++ [name] }

/-- The composite proxy's two underlying registries. -/
structure CompositeState where
  stdio : ProxyRegistry
  tunnel : ProxyRegistry
deriving DecidableEq

def initComposite : CompositeState := { stdio := emptyRegistry, tunnel := emptyRegistry }

inductive ProxyTarget where
  | stdio
  | tunnel
deriving DecidableEq

/-- Model of the composite `registerTool`/`registerPrompt`/`registerResource`
(lines 202–220): call the stdio proxy, then the tunnel proxy; a throw
propagates immediately (no rollback).  Returns the new state, the ordered
trace of underlying calls, and the propagated error if any. -/
def compositeRegister (k : Capability) (s : CompositeState) (name : List Char) :
    CompositeState × List (ProxyTarget × List Char) × Option RegistrationError :=
  match registerCap k s.stdio name with
  | .error e => (s, [(.stdio, name)], some e)
  | .ok st =>
    match registerCap k s.tunnel name with
    | .error e => ({ s with stdio := st }, [(.stdio, name), (.tunnel, name)], some e)
    | .ok tn => ({ stdio := st, tunnel := tn }, [(.stdio, name), (.tunnel, name)], none)

/-- The rejection value of an underlying proxy's failed `close()`
(modelled from the spec; the implementations are outside the snapshot). -/
inductive CloseFailure where
  | closeError
deriving DecidableEq

/-- Model of the composite `close()` (lines 226–228):
`Promise.all([stdioProxy.close(), tunnelProxy.close()])`.  Both underlying
`close()` calls are initiated (first component: which proxies were asked to
close); the composite promise then adopts the first rejection, if any. -/
def compositeClose (stdioResult tunnelResult : Except CloseFailure Unit) :
    (Bool × Bool) × Except CloseFailure Unit :=
  ((true, true),
   match stdioResult with
   | .error e => .error e
   | .ok _ => tunnelResult)

/-! ### Unfolding equations of the content-length decode loop -/

theorem processCL_no_delim (buffer : List Char) (h : delimSearch buffer = none) :
    processContentLengthBuffer buffer = (buffer, []) := by
  conv_lhs => rw [processContentLengthBuffer.eq_def]
  split
  · rfl
  · rename_i hE dL heq
    rw [h] at heq
    cases heq

theorem processCL_bad_header (buffer : List Char) (headerEnd dl : Nat)
    (hdelim : delimSearch buffer = some (headerEnd, dl))
    (hbad : execHeaderRegex (buffer.take headerEnd) = none) :
    processContentLengthBuffer buffer =
      ((processContentLengthBuffer (buffer.drop (headerEnd + dl))).1,
       .headerError (buffer.take headerEnd) ::
         (processContentLengthBuffer (buffer.drop (headerEnd + dl))).2) := by
  conv_lhs => rw [processContentLengthBuffer.eq_def]
  split
  · rename_i heq
    rw [hdelim] at heq
    cases heq
  · rename_i hE dL heq
    rw [hdelim] at heq
    simp only [Option.some.injEq, Prod.mk.injEq] at heq
    obtain ⟨rfl, rfl⟩ := heq
    simp only [hbad]

theorem processCL_wait (buffer : List Char) (headerEnd dl n : Nat)
    (hdelim : delimSearch buffer = some (headerEnd, dl))
    (hlen : execHeaderRegex (buffer.take headerEnd) = some n)
    (hshort : byteLength (buffer.drop (headerEnd + dl)) < n) :
    processContentLengthBuffer buffer = (buffer, []) := by
  conv_lhs => rw [processContentLengthBuffer.eq_def]
  split
  · rename_i heq
    simp [hdelim] at heq
  · rename_i hE dL heq
    rw [hdelim] at heq
    simp only [Option.some.injEq, Prod.mk.injEq] at heq
    obtain ⟨rfl, rfl⟩ := heq
    simp only [hlen, if_pos hshort]

theorem processCL_dispatch (buffer : List Char) (headerEnd dl n : Nat)
    (hdelim : delimSearch buffer = some (headerEnd, dl))
    (hlen : execHeaderRegex (buffer.take headerEnd) = some n)
    (hfull : ¬ byteLength (buffer.drop (headerEnd + dl)) < n) :
    processContentLengthBuffer buffer =
      ((processContentLengthBuffer (dropBytes n (buffer.drop (headerEnd + dl)))).1,
       dispatchJsonLine (takeBytes n (buffer.drop (headerEnd + dl))) ::
         (processContentLengthBuffer (dropBytes n (buffer.drop (headerEnd + dl)))).2) := by
  conv_lhs => rw [processContentLengthBuffer.eq_def]
  split
  · rename_i heq
    rw [hdelim] at heq
    cases heq
  · rename_i hE dL heq
    rw [hdelim] at heq
    simp only [Option.some.injEq, Prod.mk.injEq] at heq
    obtain ⟨rfl, rfl⟩ := heq
    simp only [hlen, if_neg hfull]

/-! ### Claim C2: mode stickiness -/

theorem handleData_preserves_mode (s : TransportState) (chunk : List Char)
    (m : FramingMode) (h : s.framingMode = some m) :
    (handleData s chunk).1.framingMode = some m := by
  unfold handleData
  rw [h]

/-- C2: once the framing mode of a stdio transport is set, no sequence of
subsequently delivered chunks — whatever bytes they contain — ever changes
it: decoding never writes the mode and detection runs only while it is
unset, so the mode is assigned at most once per stream. -/
theorem c2_mode_stickiness :
    ∀ (chunks : List (List Char)) (s : TransportState) (m : FramingMode),
      s.framingMode = some m → (runChunks s chunks).framingMode = some m := by
  intro chunks
  induction chunks with
  | nil => intro s m h; exact h
  | cons chunk rest ih =>
    intro s m h
    exact ih _ m (handleData_preserves_mode s chunk m h)

/-- Witness for C2: a transport that detected newline framing keeps it even
after a Content-Length framed chunk arrives on the same stream. -/
theorem c2_mode_stickiness_witness :
    (runChunks
      { started := true, listening := true, framingMode := some .newline, buffer := [] }
      ["Content-Length: 8\r\n\r\n\x7b\"id\":2\x7d".data]).framingMode = some .newline :=
  c2_mode_stickiness _ _ .newline rfl

/-! ### Claim C3: the content-length decode loop -/

/-- C3: in content-length mode the decoder repeatedly locates a header block
terminated by `\r\n\r\n` or, failing that, `\n\n`; a block with no valid
`Content-Length` header yields exactly one `onerror` event and decoding
continues after the delimiter; a valid header with an incomplete body
dispatches nothing and leaves the buffer intact; a complete body is
dispatched as exactly one message of `Content-Length` bytes and exactly the
consumed prefix is removed before the loop continues. -/
theorem c3_content_length_decode_loop :
    ∀ buffer : List Char,
      (delimSearch buffer = none → processContentLengthBuffer buffer = (buffer, [])) ∧
      (∀ headerEnd dl, delimSearch buffer = some (headerEnd, dl) →
        (execHeaderRegex (buffer.take headerEnd) = none →
          processContentLengthBuffer buffer =
            ((processContentLengthBuffer (buffer.drop (headerEnd + dl))).1,
             .headerError (buffer.take headerEnd) ::
               (processContentLengthBuffer (buffer.drop (headerEnd + dl))).2)) ∧
        (∀ n, execHeaderRegex (buffer.take headerEnd) = some n →
          (byteLength (buffer.drop (headerEnd + dl)) < n →
            processContentLengthBuffer buffer = (buffer, [])) ∧
          (¬ byteLength (buffer.drop (headerEnd + dl)) < n →
            processContentLengthBuffer buffer =
              ((processContentLengthBuffer (dropBytes n (buffer.drop (headerEnd + dl)))).1,
               dispatchJsonLine (takeBytes n (buffer.drop (headerEnd + dl))) ::
                 (processContentLengthBuffer (dropBytes n (buffer.drop (headerEnd + dl)))).2)))) := by
  intro buffer
  refine ⟨processCL_no_delim buffer, ?_⟩
  intro headerEnd dl hdelim
  refine ⟨processCL_bad_header buffer headerEnd dl hdelim, ?_⟩
  intro n hlen
  exact ⟨processCL_wait buffer headerEnd dl n hdelim hlen,
         processCL_dispatch buffer headerEnd dl n hdelim hlen⟩

/-- Witness for C3, exercising the partial-frame case: a complete header
announcing 8 body bytes followed by only 5 buffered body bytes dispatches
nothing and waits. -/
theorem c3_content_length_decode_loop_witness :
    processContentLengthBuffer "Content-Length: 8\r\n\r\n\x7b\"id".data =
      ("Content-Length: 8\r\n\r\n\x7b\"id".data, []) :=
  (((c3_content_length_decode_loop
      "Content-Length: 8\r\n\r\n\x7b\"id".data).2 17 4 (by decide)).2 8 (by decide)).1
    (by decide)

/-! ### Character and digit lemmas -/

theorem char_eq_of_toNat {c d : Char} (h : c.toNat = d.toNat) : c = d := by
  have hc := Char.ofNat_toNat c
  rw [← hc, h, Char.ofNat_toNat]

theorem isDigit_toNat_bounds {c : Char} (h : c.isDigit = true) :
    48 ≤ c.toNat ∧ c.toNat ≤ 57 := by
  unfold Char.isDigit at h
  simp [Char.le_def] at h
  exact ⟨h.1, h.2⟩

/-- A decimal digit character is one of the ten literals. -/
theorem digit_char_cases {c : Char} (h : c.isDigit = true) :
    c = '0' ∨ c = '1' ∨ c = '2' ∨ c = '3' ∨ c = '4' ∨
    c = '5' ∨ c = '6' ∨ c = '7' ∨ c = '8' ∨ c = '9' := by
  obtain ⟨h1, h2⟩ := isDigit_toNat_bounds h
  have hc := Char.ofNat_toNat c
  have hcase : c.toNat = 48 ∨ c.toNat = 49 ∨ c.toNat = 50 ∨ c.toNat = 51 ∨ c.toNat = 52 ∨
      c.toNat = 53 ∨ c.toNat = 54 ∨ c.toNat = 55 ∨ c.toNat = 56 ∨ c.toNat = 57 := by omega
  rcases hcase with h0|h0|h0|h0|h0|h0|h0|h0|h0|h0 <;>
    rw [← hc, h0] <;> simp

theorem toNat_digitChar {d : Nat} (h : d < 10) : (digitChar d).toNat = 48 + d := by
  interval_cases d <;> rfl

theorem isDigit_digitChar {d : Nat} (h : d < 10) : (digitChar d).isDigit = true := by
  interval_cases d <;> rfl

theorem digitChar_ne_zero {d : Nat} (h1 : 1 ≤ d) (h2 : d < 10) : digitChar d ≠ '0' := by
  interval_cases d <;> decide

theorem natDigits_shape (n : Nat) :
    ∃ c cs, natDigits n = c :: cs ∧ c.isDigit = true ∧
      (∀ x ∈ cs, x.isDigit = true) ∧ (1 ≤ n → c ≠ '0') := by
  induction n using Nat.strong_induction_on with
  | _ n ih =>
    by_cases h : n < 10
    · refine ⟨digitChar n, [], ?_, isDigit_digitChar h, by simp, fun h1 => digitChar_ne_zero h1 h⟩
      unfold natDigits
      rw [if_pos h]
    · obtain ⟨c, cs, hrep, hcd, hcs, hz⟩ := ih (n / 10) (Nat.div_lt_self (by omega) (by omega))
      refine ⟨c, cs ++ [digitChar (n % 10)], ?_, hcd, ?_, fun _ => hz (by omega)⟩
      · unfold natDigits
        rw [if_neg h, hrep]
        simp
      · intro x hx
        rcases List.mem_append.mp hx with hx1 | hx2
        · exact hcs x hx1
        · simp at hx2
          subst hx2
          exact isDigit_digitChar (by omega)

theorem natDigits_ne_nil (n : Nat) : natDigits n ≠ [] := by
  obtain ⟨c, cs, hrep, _⟩ := natDigits_shape n
  rw [hrep]
  simp

theorem natDigits_all_digits (n : Nat) : ∀ c ∈ natDigits n, c.isDigit = true := by
  obtain ⟨c, cs, hrep, hcd, hcs, _⟩ := natDigits_shape n
  rw [hrep]
  intro x hx
  rcases List.mem_cons.mp hx with rfl | hx2
  · exact hcd
  · exact hcs x hx2

theorem digitsValAux_append (a : Nat) (l1 l2 : List Char) :
    digitsValAux a (l1 ++ l2) = digitsValAux (digitsValAux a l1) l2 := by
  induction l1 generalizing a with
  | nil => rfl
  | cons c rest ih =>
    rw [List.cons_append]
    exact ih (a * 10 + (c.toNat - 48))

theorem natDigits_lt {n : Nat} (h : n < 10) : natDigits n = [digitChar n] := by
  unfold natDigits
  rw [if_pos h]

theorem natDigits_ge {n : Nat} (h : ¬ n < 10) :
    natDigits n = natDigits (n / 10) ++ [digitChar (n % 10)] := by
  conv_lhs => rw [natDigits.eq_def]
  rw [if_neg h]

theorem digitsValAux_natDigits (n : Nat) :
    ∀ a, digitsValAux a (natDigits n) = a * 10 ^ (natDigits n).length + n := by
  induction n using Nat.strong_induction_on with
  | _ n ih =>
    intro a
    by_cases h : n < 10
    · rw [natDigits_lt h]
      have hred : digitsValAux a [digitChar n] = a * 10 + ((digitChar n).toNat - 48) := rfl
      rw [hred, toNat_digitChar h]
      have hl : ([digitChar n] : List Char).length = 1 := rfl
      rw [hl, pow_one]
      omega
    · rw [natDigits_ge h, digitsValAux_append,
          ih (n / 10) (Nat.div_lt_self (by omega) (by omega)) a]
      have hred : ∀ x : Nat, digitsValAux x [digitChar (n % 10)] =
          x * 10 + ((digitChar (n % 10)).toNat - 48) := fun x => rfl
      rw [hred, toNat_digitChar (Nat.mod_lt n (by omega)), List.length_append]
      have hl : ([digitChar (n % 10)] : List Char).length = 1 := rfl
      rw [hl, pow_succ]
      have hdm := Nat.div_add_mod n 10
      have hgoal : (a * 10 ^ (natDigits (n / 10)).length + n / 10) * 10 + (48 + n % 10 - 48) =
          a * (10 ^ (natDigits (n / 10)).length * 10) + n := by
        have h48 : 48 + n % 10 - 48 = n % 10 := by omega
        rw [h48]
        ring_nf
        omega
      exact hgoal

theorem digitsVal_natDigits (n : Nat) : digitsVal (natDigits n) = n := by
  unfold digitsVal
  rw [digitsValAux_natDigits n 0]
  simp

/-! ### List take/drop helpers -/

/-- The first character of `l`, if any, does not satisfy `p`. -/
def headNot (p : Char → Bool) : List Char → Prop
  | [] => True
  | c :: _ => p c = false

theorem takeWhile_nil_of_head {p : Char → Bool} (l : List Char) (h : headNot p l) :
    l.takeWhile p = [] := by
  cases l with
  | nil => rfl
  | cons c r =>
    have hc : p c = false := h
    exact List.takeWhile_cons_of_neg (by simp [hc])

theorem takeWhile_append_all {p : Char → Bool} :
    ∀ (l1 l2 : List Char), (∀ c ∈ l1, p c = true) → headNot p l2 →
      (l1 ++ l2).takeWhile p = l1 := by
  intro l1 l2 hall hhead
  induction l1 with
  | nil => exact takeWhile_nil_of_head l2 hhead
  | cons c rest ih =>
    rw [List.cons_append, List.takeWhile_cons_of_pos (hall c (by simp)),
        ih (fun x hx => hall x (by simp [hx]))]

theorem dropWhile_eq_self_of_head {p : Char → Bool} (l : List Char) (h : headNot p l) :
    l.dropWhile p = l := by
  cases l with
  | nil => rfl
  | cons c r =>
    have hc : p c = false := h
    exact List.dropWhile_cons_of_neg (by simp [hc])

theorem skipWs_eq_self (l : List Char) (h : headNot jsonWs l) : skipWs l = l := by
  cases l with
  | nil => rfl
  | cons c r =>
    unfold skipWs
    rw [h]
    simp

theorem jsTrim_eq_self (l : List Char) (h1 : headNot jsWs l) (h2 : headNot jsWs l.reverse) :
    jsTrim l = l := by
  unfold jsTrim
  rw [dropWhile_eq_self_of_head l h1, dropWhile_eq_self_of_head l.reverse h2,
      List.reverse_reverse]

theorem stripTrailingCR_eq_self (l : List Char) (h : '\r' ∉ l) : stripTrailingCR l = l := by
  unfold stripTrailingCR
  cases hr : l.reverse with
  | nil => rfl
  | cons c r =>
    dsimp only
    rw [if_neg]
    intro hc
    subst hc
    apply h
    rw [← List.mem_reverse, hr]
    simp

/-! ### Number parsing round-trip -/

theorem parseNatDigits_natDigits (n : Nat) (rest : List Char)
    (hb : headNot Char.isDigit rest) :
    parseNatDigits (natDigits n ++ rest) = some (n, rest) := by
  obtain ⟨c, cs, hrep, hcd, hcs, hz⟩ := natDigits_shape n
  rw [hrep]
  simp only [List.cons_append]
  unfold parseNatDigits
  dsimp only
  rw [hcd]
  simp only [if_true]
  have hds : (cs ++ rest).takeWhile Char.isDigit = cs := takeWhile_append_all cs rest hcs hb
  rw [hds]
  have hdrop : (cs ++ rest).drop cs.length = rest := List.drop_left cs rest
  rw [hdrop]
  by_cases hn : n = 0
  · subst hn
    have h0 : natDigits 0 = ['0'] := by
      rw [natDigits_lt (by omega)]
      rfl
    rw [h0] at hrep
    cases hrep
    simp
    rfl
  · rw [if_neg]
    · have : digitsVal (c :: cs) = n := by rw [← hrep]; exact digitsVal_natDigits n
      rw [this]
    · intro hcon
      exact hz (by omega) hcon.1

/-! ### String escaping round-trip -/

theorem hexVal_hexDigitChar {d : Nat} (h : d < 16) : hexVal (hexDigitChar d) = some d := by
  interval_cases d <;> decide

theorem parseStringBody_simple_escape (e ch : Char) (he : ¬ e = 'u')
    (hu : unescapeChar e = some ch) (tail : List Char) :
    parseStringBody ('\\' :: e :: tail) =
      (parseStringBody tail).map (fun p => (ch :: p.1, p.2)) := by
  conv_lhs => unfold parseStringBody
  rw [if_neg (by decide : ¬('\\' = '"')), if_pos rfl]
  dsimp only
  rw [if_neg he, hu]

theorem parseStringBody_escape :
    ∀ (s rest : List Char), parseStringBody (escapeStr s ++ '"' :: rest) = some (s, rest) := by
  intro s
  induction s with
  | nil =>
    intro rest
    show parseStringBody ('"' :: rest) = some ([], rest)
    unfold parseStringBody
    rw [if_pos rfl]
  | cons c cs ih =>
    intro rest
    have harr : escapeStr (c :: cs) ++ '"' :: rest =
        escapeChar c ++ (escapeStr cs ++ '"' :: rest) := by
      simp [escapeStr]
    rw [harr]
    by_cases h1 : c = '"'
    · subst h1
      have hesc : escapeChar '"' = ['\\', '"'] := by decide
      rw [hesc]
      simp only [List.cons_append, List.nil_append]
      rw [parseStringBody_simple_escape '"' '"' (by decide) (by decide), ih rest]
      rfl
    · by_cases h2 : c = '\\'
      · subst h2
        have hesc : escapeChar '\\' = ['\\', '\\'] := by decide
        rw [hesc]
        simp only [List.cons_append, List.nil_append]
        rw [parseStringBody_simple_escape '\\' '\\' (by decide) (by decide), ih rest]
        rfl
      · by_cases h3 : c = '\u0008'
        · subst h3
          have hesc : escapeChar '\u0008' = ['\\', 'b'] := by decide
          rw [hesc]
          simp only [List.cons_append, List.nil_append]
          rw [parseStringBody_simple_escape 'b' '\u0008' (by decide) (by decide), ih rest]
          rfl
        · by_cases h4 : c = '\t'
          · subst h4
            have hesc : escapeChar '\t' = ['\\', 't'] := by decide
            rw [hesc]
            simp only [List.cons_append, List.nil_append]
            rw [parseStringBody_simple_escape 't' '\t' (by decide) (by decide), ih rest]
            rfl
          · by_cases h5 : c = '\n'
            · subst h5
              have hesc : escapeChar '\n' = ['\\', 'n'] := by decide
              rw [hesc]
              simp only [List.cons_append, List.nil_append]
              rw [parseStringBody_simple_escape 'n' '\n' (by decide) (by decide), ih rest]
              rfl
            · by_cases h6 : c = '\u000C'
              · subst h6
                have hesc : escapeChar '\u000C' = ['\\', 'f'] := by decide
                rw [hesc]
                simp only [List.cons_append, List.nil_append]
                rw [parseStringBody_simple_escape 'f' '\u000C' (by decide) (by decide), ih rest]
                rfl
              · by_cases h7 : c = '\r'
                · subst h7
                  have hesc : escapeChar '\r' = ['\\', 'r'] := by decide
                  rw [hesc]
                  simp only [List.cons_append, List.nil_append]
                  rw [parseStringBody_simple_escape 'r' '\r' (by decide) (by decide), ih rest]
                  rfl
                · by_cases h8 : c.toNat < 0x20
                  · have hesc : escapeChar c = ['\\', 'u', '0', '0',
                        hexDigitChar (c.toNat / 16), hexDigitChar (c.toNat % 16)] := by
                      unfold escapeChar
                      rw [if_neg h1, if_neg h2, if_neg h3, if_neg h4, if_neg h5,
                          if_neg h6, if_neg h7, if_pos h8]
                    rw [hesc]
                    have hdiv : c.toNat / 16 < 16 := by omega
                    have hmod : c.toNat % 16 < 16 := by omega
                    simp only [List.cons_append, List.nil_append]
                    unfold parseStringBody
                    rw [if_neg (by decide : ¬('\\' = '"')), if_pos rfl]
                    dsimp only
                    rw [if_pos rfl]
                    have h00 : hexVal '0' = some 0 := by decide
                    rw [h00, hexVal_hexDigitChar hdiv, hexVal_hexDigitChar hmod]
                    dsimp only
                    rw [ih rest]
                    have hval : ((0 * 16 + 0) * 16 + c.toNat / 16) * 16 + c.toNat % 16 = c.toNat := by
                      omega
                    rw [hval, Char.ofNat_toNat]
                    rfl
                  · have hesc : escapeChar c = [c] := by
                      unfold escapeChar
                      rw [if_neg h1, if_neg h2, if_neg h3, if_neg h4, if_neg h5,
                          if_neg h6, if_neg h7, if_neg h8]
                    rw [hesc]
                    simp only [List.cons_append, List.nil_append]
                    unfold parseStringBody
                    rw [if_neg h1, if_neg h2, if_neg h8, ih rest]
                    rfl

/-! ### Unfolding equations of the newline decode loop -/

theorem processNL_no_nl (buffer : List Char) (h : buffer.findIdx? (· == '\n') = none) :
    processNewlineBuffer buffer = (buffer, []) := by
  conv_lhs => rw [processNewlineBuffer.eq_def]
  split
  · rfl
  · rename_i heq
    simp [h] at heq

theorem processNL_skip (buffer : List Char) (i : Nat)
    (h : buffer.findIdx? (· == '\n') = some i)
    (hline : (jsTrim (stripTrailingCR (buffer.take i))).isEmpty = true) :
    processNewlineBuffer buffer = processNewlineBuffer (buffer.drop (i + 1)) := by
  conv_lhs => rw [processNewlineBuffer.eq_def]
  split
  · rename_i heq
    simp [h] at heq
  · rename_i j heq
    rw [h] at heq
    simp only [Option.some.injEq] at heq
    subst heq
    rw [if_pos hline]

theorem processNL_dispatch (buffer : List Char) (i : Nat)
    (h : buffer.findIdx? (· == '\n') = some i)
    (hline : (jsTrim (stripTrailingCR (buffer.take i))).isEmpty = false) :
    processNewlineBuffer buffer =
      ((processNewlineBuffer (buffer.drop (i + 1))).1,
       dispatchJsonLine (jsTrim (stripTrailingCR (buffer.take i))) ::
         (processNewlineBuffer (buffer.drop (i + 1))).2) := by
  conv_lhs => rw [processNewlineBuffer.eq_def]
  split
  · rename_i heq
    simp [h] at heq
  · rename_i j heq
    rw [h] at heq
    simp only [Option.some.injEq] at heq
    subst heq
    rw [if_neg (by simp [hline])]

theorem findIdx?_append_nl (l X : List Char) (h : '\n' ∉ l) :
    (l ++ '\n' :: X).findIdx? (· == '\n') = some l.length := by
  induction l with
  | nil => simp [List.findIdx?_cons]
  | cons c rest ih =>
    have hc : ¬ ((c == '\n') = true) := by
      simp only [beq_iff_eq]
      intro hcc
      exact h (by simp [hcc])
    rw [List.cons_append, List.findIdx?_cons, if_neg hc, List.findIdx?_succ,
        ih (fun hm => h (by simp [hm]))]
    rfl

theorem drop_append_cons (l : List Char) (c : Char) (X : List Char) :
    (l ++ c :: X).drop (l.length + 1) = X := by
  have hr : l ++ c :: X = (l ++ [c]) ++ X := by simp
  have hl : (l ++ [c]).length = l.length + 1 := by simp
  rw [hr, ← hl, List.drop_left]

/-! ### Byte slicing -/

theorem byteLength_cons (c : Char) (l : List Char) :
    byteLength (c :: l) = utf8Len c + byteLength l := by
  simp [byteLength]

theorem takeBytes_full : ∀ (l : List Char) (n : Nat), byteLength l ≤ n → takeBytes n l = l := by
  intro l
  induction l with
  | nil => intro n _; rfl
  | cons c rest ih =>
    intro n h
    rw [byteLength_cons] at h
    unfold takeBytes
    rw [if_pos (by omega)]
    rw [ih (n - utf8Len c) (by omega)]

theorem dropBytes_full : ∀ (l : List Char) (n : Nat), byteLength l ≤ n → dropBytes n l = [] := by
  intro l
  induction l with
  | nil => intro n _; rfl
  | cons c rest ih =>
    intro n h
    rw [byteLength_cons] at h
    unfold dropBytes
    rw [if_pos (by omega)]
    exact ih (n - utf8Len c) (by omega)

/-! ### Character class facts -/

theorem isDigit_facts {c : Char} (h : c.isDigit = true) :
    jsWs c = false ∧ jsonWs c = false ∧ jsLineTerm c = false ∧
    c ≠ ']' ∧ c ≠ '}' ∧ c ≠ ',' ∧ c ≠ '\n' ∧ c ≠ '\r' ∧
    c ≠ 'n' ∧ c ≠ 't' ∧ c ≠ 'f' ∧ c ≠ '"' ∧ c ≠ '[' ∧ c ≠ '{' ∧ c ≠ '-' := by
  rcases digit_char_cases h with rfl|rfl|rfl|rfl|rfl|rfl|rfl|rfl|rfl|rfl <;> decide

/-- The possible first characters of a serialized JSON value. -/
theorem serialize_head (v : Json) :
    ∃ c cs, serializeJson v = c :: cs ∧
      (c = 'n' ∨ c = 't' ∨ c = 'f' ∨ c = '"' ∨ c = '[' ∨ c = '{' ∨ c = '-' ∨
       c.isDigit = true) := by
  cases v with
  | null => exact ⟨'n', _, rfl, by simp⟩
  | bool b =>
    cases b with
    | true => exact ⟨'t', _, rfl, by simp⟩
    | false => exact ⟨'f', _, rfl, by simp⟩
  | num i =>
    show ∃ c cs, intChars i = c :: cs ∧ _
    unfold intChars
    by_cases hi : i < 0
    · rw [if_pos hi]
      exact ⟨'-', _, rfl, by simp⟩
    · rw [if_neg hi]
      obtain ⟨c, cs, hrep, hcd, _, _⟩ := natDigits_shape i.natAbs
      exact ⟨c, cs, hrep, by simp [hcd]⟩
  | str s => exact ⟨'"', _, rfl, by simp⟩
  | arr items => exact ⟨'[', _, rfl, by simp⟩
  | obj fields => exact ⟨'{', _, rfl, by simp⟩

/-- Head-character facts needed to navigate the parser's dispatch chain. -/
theorem serialize_head_facts (v : Json) :
    ∃ c cs, serializeJson v = c :: cs ∧
      jsonWs c = false ∧ jsWs c = false ∧ c ≠ ']' ∧ c ≠ '}' ∧ c ≠ ',' := by
  obtain ⟨c, cs, hrep, hcls⟩ := serialize_head v
  refine ⟨c, cs, hrep, ?_⟩
  rcases hcls with rfl|rfl|rfl|rfl|rfl|rfl|rfl|hd
  · decide
  · decide
  · decide
  · decide
  · decide
  · decide
  · decide
  · obtain ⟨h1, h2, _, h4, h5, h6, _⟩ := isDigit_facts hd
    exact ⟨h2, h1, h4, h5, h6⟩

theorem skipWs_serialize (v : Json) (X : List Char) :
    skipWs (serializeJson v ++ X) = serializeJson v ++ X := by
  obtain ⟨c, cs, hrep, h1, _⟩ := serialize_head_facts v
  rw [hrep]
  exact skipWs_eq_self _ (by simp [headNot, h1])

/-! ### Serialized output contains no raw control characters -/

theorem hexDigitChar_not_ctrl (d : Nat) (h : d < 16) :
    hexDigitChar d ≠ '\n' ∧ hexDigitChar d ≠ '\r' := by
  interval_cases d <;> decide

theorem escapeChar_no_ctrl (c x : Char) (hx : x ∈ escapeChar c) : x ≠ '\n' ∧ x ≠ '\r' := by
  unfold escapeChar at hx
  by_cases h1 : c = '"'
  · rw [if_pos h1] at hx
    simp at hx
    rcases hx with rfl | rfl <;> decide
  · rw [if_neg h1] at hx
    by_cases h2 : c = '\\'
    · rw [if_pos h2] at hx
      simp at hx
      rcases hx with rfl | rfl <;> decide
    · rw [if_neg h2] at hx
      by_cases h3 : c = '\u0008'
      · rw [if_pos h3] at hx
        simp at hx
        rcases hx with rfl | rfl <;> decide
      · rw [if_neg h3] at hx
        by_cases h4 : c = '\t'
        · rw [if_pos h4] at hx
          simp at hx
          rcases hx with rfl | rfl <;> decide
        · rw [if_neg h4] at hx
          by_cases h5 : c = '\n'
          · rw [if_pos h5] at hx
            simp at hx
            rcases hx with rfl | rfl <;> decide
          · rw [if_neg h5] at hx
            by_cases h6 : c = '\u000C'
            · rw [if_pos h6] at hx
              simp at hx
              rcases hx with rfl | rfl <;> decide
            · rw [if_neg h6] at hx
              by_cases h7 : c = '\r'
              · rw [if_pos h7] at hx
                simp at hx
                rcases hx with rfl | rfl <;> decide
              · rw [if_neg h7] at hx
                by_cases h8 : c.toNat < 0x20
                · rw [if_pos h8] at hx
                  simp at hx
                  rcases hx with rfl | rfl | rfl | rfl | rfl
                  · decide
                  · decide
                  · decide
                  · exact hexDigitChar_not_ctrl (c.toNat / 16) (by omega)
                  · exact hexDigitChar_not_ctrl (c.toNat % 16) (by omega)
                · rw [if_neg h8] at hx
                  simp at hx
                  subst hx
                  constructor <;> intro hc <;> subst hc <;> exact h8 (by decide)

theorem escapeStr_no_ctrl : ∀ s : List Char, '\n' ∉ escapeStr s ∧ '\r' ∉ escapeStr s := by
  intro s
  induction s with
  | nil => simp [escapeStr]
  | cons c cs ih =>
    simp only [escapeStr, List.mem_append, not_or]
    constructor
    · exact ⟨fun hm => (escapeChar_no_ctrl c _ hm).1 rfl, fun hm => ih.1 hm⟩
    · exact ⟨fun hm => (escapeChar_no_ctrl c _ hm).2 rfl, fun hm => ih.2 hm⟩

theorem intChars_no_ctrl (i : Int) : '\n' ∉ intChars i ∧ '\r' ∉ intChars i := by
  have hdig : ∀ x ∈ natDigits i.natAbs, x ≠ '\n' ∧ x ≠ '\r' := by
    intro x hx
    have hd := natDigits_all_digits i.natAbs x hx
    obtain ⟨_, _, _, _, _, _, h7, h8, _⟩ := isDigit_facts hd
    exact ⟨h7, h8⟩
  unfold intChars
  by_cases hi : i < 0
  · rw [if_pos hi]
    simp only [List.mem_cons, not_or]
    constructor
    · exact ⟨by decide, fun hm => (hdig _ hm).1 rfl⟩
    · exact ⟨by decide, fun hm => (hdig _ hm).2 rfl⟩
  · rw [if_neg hi]
    exact ⟨fun hm => (hdig _ hm).1 rfl, fun hm => (hdig _ hm).2 rfl⟩

mutual

theorem serializeJson_no_ctrl : ∀ v : Json, '\n' ∉ serializeJson v ∧ '\r' ∉ serializeJson v
  | .null => by decide
  | .bool true => by decide
  | .bool false => by decide
  | .num i => intChars_no_ctrl i
  | .str s => by
    have hes := escapeStr_no_ctrl s
    show ('\n' ∉ '"' :: (escapeStr s ++ ['"'])) ∧ ('\r' ∉ '"' :: (escapeStr s ++ ['"']))
    simp only [List.mem_cons, List.mem_append, not_or]
    exact ⟨⟨by decide, hes.1, by decide⟩, ⟨by decide, hes.2, by decide⟩⟩
  | .arr items => by
    have hit := serializeItems_no_ctrl items
    show ('\n' ∉ '[' :: serializeItems items) ∧ ('\r' ∉ '[' :: serializeItems items)
    simp only [List.mem_cons, not_or]
    exact ⟨⟨by decide, hit.1⟩, ⟨by decide, hit.2⟩⟩
  | .obj fields => by
    have hf := serializeFields_no_ctrl fields
    show ('\n' ∉ '\x7b' :: serializeFields fields) ∧ ('\r' ∉ '\x7b' :: serializeFields fields)
    simp only [List.mem_cons, not_or]
    exact ⟨⟨by decide, hf.1⟩, ⟨by decide, hf.2⟩⟩

theorem serializeItems_no_ctrl : ∀ items : JsonItems,
    '\n' ∉ serializeItems items ∧ '\r' ∉ serializeItems items
  | .nil => by decide
  | .cons v .nil => by
    have hv := serializeJson_no_ctrl v
    show ('\n' ∉ serializeJson v ++ [']']) ∧ ('\r' ∉ serializeJson v ++ [']'])
    simp only [List.mem_append, not_or]
    exact ⟨⟨hv.1, by decide⟩, ⟨hv.2, by decide⟩⟩
  | .cons v (.cons w tl) => by
    have hv := serializeJson_no_ctrl v
    have ht := serializeItems_no_ctrl (.cons w tl)
    show ('\n' ∉ serializeJson v ++ ',' :: serializeItems (JsonItems.cons w tl)) ∧
         ('\r' ∉ serializeJson v ++ ',' :: serializeItems (JsonItems.cons w tl))
    simp only [List.mem_append, List.mem_cons, not_or]
    exact ⟨⟨hv.1, by decide, ht.1⟩, ⟨hv.2, by decide, ht.2⟩⟩

theorem serializeFields_no_ctrl : ∀ fields : JsonFields,
    '\n' ∉ serializeFields fields ∧ '\r' ∉ serializeFields fields
  | .nil => by decide
  | .cons k v .nil => by
    have hv := serializeJson_no_ctrl v
    have hk := escapeStr_no_ctrl k
    show ('\n' ∉ '"' :: (escapeStr k ++ '"' :: ':' :: (serializeJson v ++ ['\x7d']))) ∧
         ('\r' ∉ '"' :: (escapeStr k ++ '"' :: ':' :: (serializeJson v ++ ['\x7d'])))
    simp only [List.mem_cons, List.mem_append, not_or]
    exact ⟨⟨by decide, hk.1, by decide, by decide, hv.1, by decide⟩,
           ⟨by decide, hk.2, by decide, by decide, hv.2, by decide⟩⟩
  | .cons k v (.cons k2 w tl) => by
    have hv := serializeJson_no_ctrl v
    have hk := escapeStr_no_ctrl k
    have ht := serializeFields_no_ctrl (.cons k2 w tl)
    show ('\n' ∉ '"' :: (escapeStr k ++ '"' :: ':' ::
        (serializeJson v ++ ',' :: serializeFields (JsonFields.cons k2 w tl)))) ∧
         ('\r' ∉ '"' :: (escapeStr k ++ '"' :: ':' ::
        (serializeJson v ++ ',' :: serializeFields (JsonFields.cons k2 w tl))))
    simp only [List.mem_cons, List.mem_append, not_or]
    exact ⟨⟨by decide, hk.1, by decide, by decide, hv.1, by decide, ht.1⟩,
           ⟨by decide, hk.2, by decide, by decide, hv.2, by decide, ht.2⟩⟩

end

/-! ### Fuel accounting: the parser's fuel need is bounded by output length -/

mutual

theorem sizeJson_le_len : ∀ v : Json, sizeJson v ≤ (serializeJson v).length
  | .null => by simp [sizeJson, serializeJson]
  | .bool true => by simp [sizeJson, serializeJson]
  | .bool false => by simp [sizeJson, serializeJson]
  | .num i => by
    have := natDigits_ne_nil i.natAbs
    simp only [sizeJson, serializeJson]
    unfold intChars
    by_cases hi : i < 0
    · rw [if_pos hi]
      simp
    · rw [if_neg hi]
      cases hh : natDigits i.natAbs with
      | nil => exact absurd hh this
      | cons a b => simp
  | .str s => by simp [sizeJson, serializeJson]
  | .arr items => by
    have := sizeItems_le_len items
    simp only [sizeJson, serializeJson, List.length_cons]
    omega
  | .obj fields => by
    have := sizeFields_le_len fields
    simp only [sizeJson, serializeJson, List.length_cons]
    omega

theorem sizeItems_le_len : ∀ items : JsonItems, sizeItems items ≤ (serializeItems items).length
  | .nil => by simp [sizeItems, serializeItems]
  | .cons v .nil => by
    have hv := sizeJson_le_len v
    simp only [sizeItems, serializeItems, List.length_append, List.length_cons, List.length_nil]
    omega
  | .cons v (.cons w tl) => by
    have hv := sizeJson_le_len v
    have ht := sizeItems_le_len (.cons w tl)
    simp only [sizeItems, serializeItems, List.length_append, List.length_cons,
      List.length_nil] at ht ⊢
    omega

theorem sizeFields_le_len : ∀ fields : JsonFields, sizeFields fields ≤ (serializeFields fields).length
  | .nil => by simp [sizeFields, serializeFields]
  | .cons k v .nil => by
    have hv := sizeJson_le_len v
    simp only [sizeFields, serializeFields, List.length_cons, List.length_append, List.length_nil]
    omega
  | .cons k v (.cons k2 w tl) => by
    have hv := sizeJson_le_len v
    have ht := sizeFields_le_len (.cons k2 w tl)
    simp only [sizeFields, serializeFields, List.length_cons, List.length_append,
      List.length_nil] at ht ⊢
    omega

end

theorem sizeJson_pos (v : Json) : 1 ≤ sizeJson v := by
  cases v <;> simp [sizeJson]

/-! ### Last characters of serialized output -/

theorem natDigits_reverse_head (n : Nat) :
    ∃ d ds, (natDigits n).reverse = d :: ds ∧ d.isDigit = true := by
  cases h : (natDigits n).reverse with
  | nil =>
    exfalso
    have : natDigits n = [] := by
      have := congrArg List.reverse h
      simpa using this
    exact natDigits_ne_nil n this
  | cons d ds =>
    refine ⟨d, ds, rfl, ?_⟩
    apply natDigits_all_digits n
    rw [← List.mem_reverse, h]
    simp

theorem serializeItems_reverse_head :
    ∀ items : JsonItems, ∃ ds, (serializeItems items).reverse = ']' :: ds
  | .nil => ⟨[], rfl⟩
  | .cons v .nil => by
    refine ⟨(serializeJson v).reverse, ?_⟩
    show (serializeJson v ++ [']']).reverse = _
    rw [List.reverse_append]
    rfl
  | .cons v (.cons w tl2) => by
    obtain ⟨ds, hds⟩ := serializeItems_reverse_head (.cons w tl2)
    refine ⟨ds ++ ',' :: (serializeJson v).reverse, ?_⟩
    show (serializeJson v ++ ',' :: serializeItems (JsonItems.cons w tl2)).reverse = _
    rw [List.reverse_append, List.reverse_cons, hds]
    simp

theorem serializeFields_reverse_head :
    ∀ fields : JsonFields, ∃ ds, (serializeFields fields).reverse = '\x7d' :: ds
  | .nil => ⟨[], rfl⟩
  | .cons k v .nil => by
    refine ⟨(serializeJson v).reverse ++ ':' :: '"' :: (escapeStr k).reverse ++ ['"'], ?_⟩
    show ('"' :: (escapeStr k ++ '"' :: ':' :: (serializeJson v ++ ['\x7d']))).reverse = _
    simp [List.reverse_append]
  | .cons k v (.cons k2 w tl2) => by
    obtain ⟨ds, hds⟩ := serializeFields_reverse_head (.cons k2 w tl2)
    refine ⟨ds ++ ',' :: (serializeJson v).reverse ++ ':' :: '"' :: (escapeStr k).reverse ++ ['"'], ?_⟩
    show ('"' :: (escapeStr k ++ '"' :: ':' ::
        (serializeJson v ++ ',' :: serializeFields (JsonFields.cons k2 w tl2)))).reverse = _
    simp [List.reverse_append, hds]

/-- The last character of a serialized JSON value is never white space. -/
theorem serialize_last_facts (v : Json) : headNot jsWs (serializeJson v).reverse := by
  cases v with
  | null => exact (by decide : jsWs 'l' = false)
  | bool b =>
    cases b with
    | true => exact (by decide : jsWs 'e' = false)
    | false => exact (by decide : jsWs 'e' = false)
  | num i =>
    show headNot jsWs (intChars i).reverse
    unfold intChars
    obtain ⟨d, ds, hrev, hd⟩ := natDigits_reverse_head i.natAbs
    obtain ⟨h1, _⟩ := isDigit_facts hd
    by_cases hi : i < 0
    · rw [if_pos hi, List.reverse_cons, hrev]
      show jsWs d = false
      exact h1
    · rw [if_neg hi, hrev]
      exact h1
  | str s =>
    show headNot jsWs ('"' :: (escapeStr s ++ ['"'])).reverse
    rw [List.reverse_cons, List.reverse_append]
    exact (by decide : jsWs '"' = false)
  | arr items =>
    show headNot jsWs ('[' :: serializeItems items).reverse
    obtain ⟨ds, hds⟩ := serializeItems_reverse_head items
    rw [List.reverse_cons, hds]
    exact (by decide : jsWs ']' = false)
  | obj fields =>
    show headNot jsWs ('\x7b' :: serializeFields fields).reverse
    obtain ⟨ds, hds⟩ := serializeFields_reverse_head fields
    rw [List.reverse_cons, hds]
    exact (by decide : jsWs '\x7d' = false)

theorem skipWs_serializeItems (items : JsonItems) (X : List Char) :
    skipWs (serializeItems items ++ X) = serializeItems items ++ X := by
  cases items with
  | nil => exact skipWs_eq_self _ (by decide : jsonWs ']' = false)
  | cons v tl =>
    cases tl with
    | nil =>
      show skipWs ((serializeJson v ++ [']']) ++ X) = (serializeJson v ++ [']']) ++ X
      rw [List.append_assoc]
      exact skipWs_serialize v _
    | cons w tl2 =>
      show skipWs ((serializeJson v ++ ',' :: serializeItems (JsonItems.cons w tl2)) ++ X) =
           (serializeJson v ++ ',' :: serializeItems (JsonItems.cons w tl2)) ++ X
      rw [List.append_assoc]
      exact skipWs_serialize v _

/-! ### One-step unfoldings of the fuel parser (definitional) -/

theorem parseValue_null_eq (f : Nat) (rest : List Char) :
    parseValue (f + 1) ('n' :: 'u' :: 'l' :: 'l' :: rest) = some (.null, rest) := rfl

theorem parseValue_true_eq (f : Nat) (rest : List Char) :
    parseValue (f + 1) ('t' :: 'r' :: 'u' :: 'e' :: rest) = some (.bool true, rest) := rfl

theorem parseValue_false_eq (f : Nat) (rest : List Char) :
    parseValue (f + 1) ('f' :: 'a' :: 'l' :: 's' :: 'e' :: rest) = some (.bool false, rest) := rfl

theorem parseValue_str_eq (f : Nat) (tail : List Char) :
    parseValue (f + 1) ('"' :: tail) =
      (parseStringBody tail).map (fun p => (Json.str p.1, p.2)) := rfl

theorem parseValue_arr_eq (f : Nat) (tail : List Char) :
    parseValue (f + 1) ('[' :: tail) =
      (if (skipWs tail).head? = some ']' then some (.arr .nil, (skipWs tail).tail)
       else (parseItems f (skipWs tail)).map (fun p => (Json.arr p.1, p.2))) := rfl

theorem parseValue_obj_eq (f : Nat) (tail : List Char) :
    parseValue (f + 1) ('\x7b' :: tail) =
      (if (skipWs tail).head? = some '\x7d' then some (.obj .nil, (skipWs tail).tail)
       else (parseFields f (skipWs tail)).map (fun p => (Json.obj p.1, p.2))) := rfl

theorem parseValue_neg_eq (f : Nat) (tail : List Char) :
    parseValue (f + 1) ('-' :: tail) =
      (parseNatDigits tail).map (fun p => (Json.num (-(p.1 : Int)), p.2)) := rfl

theorem parseValue_succ_eq (f : Nat) (c : Char) (tail : List Char) :
    parseValue (f + 1) (c :: tail) =
      (if c = 'n' then
        match tail with
        | c1 :: c2 :: c3 :: r =>
          if c1 = 'u' ∧ c2 = 'l' ∧ c3 = 'l' then some (.null, r) else none
        | _ => none
      else if c = 't' then
        match tail with
        | c1 :: c2 :: c3 :: r =>
          if c1 = 'r' ∧ c2 = 'u' ∧ c3 = 'e' then some (.bool true, r) else none
        | _ => none
      else if c = 'f' then
        match tail with
        | c1 :: c2 :: c3 :: c4 :: r =>
          if c1 = 'a' ∧ c2 = 'l' ∧ c3 = 's' ∧ c4 = 'e' then some (.bool false, r) else none
        | _ => none
      else if c = '"' then (parseStringBody tail).map (fun p => (Json.str p.1, p.2))
      else if c = '[' then
        if (skipWs tail).head? = some ']' then some (.arr .nil, (skipWs tail).tail)
        else (parseItems f (skipWs tail)).map (fun p => (Json.arr p.1, p.2))
      else if c = '\x7b' then
        if (skipWs tail).head? = some '\x7d' then some (.obj .nil, (skipWs tail).tail)
        else (parseFields f (skipWs tail)).map (fun p => (Json.obj p.1, p.2))
      else if c = '-' then (parseNatDigits tail).map (fun p => (Json.num (-(p.1 : Int)), p.2))
      else if c.isDigit then (parseNatDigits (c :: tail)).map (fun p => (Json.num (p.1 : Int), p.2))
      else none) := rfl

theorem parseItems_succ_eq (f : Nat) (s : List Char) :
    parseItems (f + 1) s =
      (match parseValue f s with
       | none => none
       | some (v, r) =>
         if (skipWs r).head? = some ',' then
           (parseItems f (skipWs (skipWs r).tail)).map (fun p => (JsonItems.cons v p.1, p.2))
         else if (skipWs r).head? = some ']' then some (.cons v .nil, (skipWs r).tail)
         else none) := rfl

theorem parseFields_succ_eq (f : Nat) (c : Char) (tail : List Char) :
    parseFields (f + 1) (c :: tail) =
      (if c = '"' then
        match parseStringBody tail with
        | none => none
        | some (k, r1) =>
          if (skipWs r1).head? = some ':' then
            match parseValue f (skipWs (skipWs r1).tail) with
            | none => none
            | some (v, r3) =>
              if (skipWs r3).head? = some ',' then
                (parseFields f (skipWs (skipWs r3).tail)).map
                  (fun p => (JsonFields.cons k v p.1, p.2))
              else if (skipWs r3).head? = some '\x7d' then some (.cons k v .nil, (skipWs r3).tail)
              else none
          else none
      else none) := rfl

theorem sizeItems_pos_of_ne_nil {items : JsonItems} (h : items ≠ .nil) : 1 ≤ sizeItems items := by
  cases items with
  | nil => exact absurd rfl h
  | cons v tl => simp [sizeItems]

theorem sizeFields_pos_of_ne_nil {fields : JsonFields} (h : fields ≠ .nil) :
    1 ≤ sizeFields fields := by
  cases fields with
  | nil => exact absurd rfl h
  | cons k v tl => simp [sizeFields]

/-! ### The parser inverts the serializer -/

theorem parse_round :
    ∀ fuel : Nat,
      (∀ (v : Json) (rest : List Char), sizeJson v ≤ fuel → headNot Char.isDigit rest →
        parseValue fuel (serializeJson v ++ rest) = some (v, rest)) ∧
      (∀ (items : JsonItems) (rest : List Char), items ≠ .nil → sizeItems items ≤ fuel →
        parseItems fuel (serializeItems items ++ rest) = some (items, rest)) ∧
      (∀ (fields : JsonFields) (rest : List Char), fields ≠ .nil → sizeFields fields ≤ fuel →
        parseFields fuel (serializeFields fields ++ rest) = some (fields, rest)) := by
  intro fuel
  induction fuel with
  | zero =>
    refine ⟨?_, ?_, ?_⟩
    · intro v rest hs _
      have := sizeJson_pos v
      omega
    · intro items rest hne hs
      have := sizeItems_pos_of_ne_nil hne
      omega
    · intro fields rest hne hs
      have := sizeFields_pos_of_ne_nil hne
      omega
  | succ f ih =>
    obtain ⟨ihv, ihi, ihf⟩ := ih
    refine ⟨?_, ?_, ?_⟩
    · intro v rest hs hb
      cases v with
      | null => exact parseValue_null_eq f rest
      | bool b =>
        cases b with
        | true => exact parseValue_true_eq f rest
        | false => exact parseValue_false_eq f rest
      | str s =>
        show parseValue (f + 1) (('"' :: (escapeStr s ++ ['"'])) ++ rest) = _
        have harr : ('"' :: (escapeStr s ++ ['"'])) ++ rest =
            '"' :: (escapeStr s ++ '"' :: rest) := by simp
        rw [harr, parseValue_str_eq, parseStringBody_escape]
        rfl
      | num i =>
        show parseValue (f + 1) (intChars i ++ rest) = _
        by_cases hi : i < 0
        · have hic : intChars i = '-' :: natDigits i.natAbs := by
            unfold intChars
            rw [if_pos hi]
          rw [hic]
          show parseValue (f + 1) ('-' :: (natDigits i.natAbs ++ rest)) = _
          rw [parseValue_neg_eq, parseNatDigits_natDigits i.natAbs rest hb]
          have hnn : -((i.natAbs : Nat) : Int) = i := by omega
          simp only [Option.map_some']
          rw [hnn]
        · have hic : intChars i = natDigits i.natAbs := by
            unfold intChars
            rw [if_neg hi]
          obtain ⟨c, cs, hrep, hcd, hcs, hz⟩ := natDigits_shape i.natAbs
          obtain ⟨_, _, _, _, _, _, _, _, hcn, hct, hcf, hcq, hclb, hcob, hcneg⟩ :=
            isDigit_facts hcd
          rw [hic, hrep]
          show parseValue (f + 1) (c :: (cs ++ rest)) = _
          rw [parseValue_succ_eq, if_neg hcn, if_neg hct, if_neg hcf, if_neg hcq,
              if_neg hclb, if_neg hcob, if_neg hcneg, if_pos hcd]
          have hjoin : c :: (cs ++ rest) = natDigits i.natAbs ++ rest := by
            rw [hrep]
            rfl
          rw [hjoin, parseNatDigits_natDigits i.natAbs rest hb]
          have hnn : ((i.natAbs : Nat) : Int) = i := by omega
          simp only [Option.map_some']
          rw [hnn]
      | arr items =>
        cases items with
        | nil =>
          show parseValue (f + 1) ('[' :: ']' :: rest) = some (.arr .nil, rest)
          rw [parseValue_arr_eq,
              skipWs_eq_self (']' :: rest) (show jsonWs ']' = false by decide),
              if_pos (show (']' :: rest).head? = some ']' by rfl)]
          rfl
        | cons w tl =>
          show parseValue (f + 1)
              ('[' :: (serializeItems (JsonItems.cons w tl) ++ rest)) = _
          rw [parseValue_arr_eq, skipWs_serializeItems]
          obtain ⟨c, cs, hrep, h1, h2, h3, h4, h5⟩ := serialize_head_facts w
          have hser : ∃ R, serializeItems (JsonItems.cons w tl) = serializeJson w ++ R := by
            cases tl with
            | nil => exact ⟨[']'], rfl⟩
            | cons x y => exact ⟨',' :: serializeItems (JsonItems.cons x y), rfl⟩
          obtain ⟨R, hR⟩ := hser
          have hhead : (serializeItems (JsonItems.cons w tl) ++ rest).head? = some c := by
            rw [hR, hrep]
            simp
          rw [if_neg (by rw [hhead]; simp [h3])]
          rw [ihi (JsonItems.cons w tl) rest
              (by intro hcon; exact JsonItems.noConfusion hcon)
              (by simp only [sizeJson] at hs; omega)]
          rfl
      | obj fields =>
        cases fields with
        | nil =>
          show parseValue (f + 1) ('\x7b' :: '\x7d' :: rest) = some (.obj .nil, rest)
          rw [parseValue_obj_eq,
              skipWs_eq_self ('\x7d' :: rest) (show jsonWs '\x7d' = false by decide),
              if_pos (show ('\x7d' :: rest).head? = some '\x7d' by rfl)]
          rfl
        | cons k w tl =>
          show parseValue (f + 1)
              ('\x7b' :: (serializeFields (JsonFields.cons k w tl) ++ rest)) = _
          rw [parseValue_obj_eq]
          have hfshape : ∃ R, serializeFields (JsonFields.cons k w tl) = '"' :: R := by
            cases tl with
            | nil => exact ⟨escapeStr k ++ '"' :: ':' :: (serializeJson w ++ ['\x7d']), rfl⟩
            | cons k2 x y =>
              exact ⟨escapeStr k ++ '"' :: ':' ::
                (serializeJson w ++ ',' :: serializeFields (JsonFields.cons k2 x y)), rfl⟩
          obtain ⟨R, hR⟩ := hfshape
          have hws : skipWs (serializeFields (JsonFields.cons k w tl) ++ rest) =
              serializeFields (JsonFields.cons k w tl) ++ rest := by
            rw [hR]
            exact skipWs_eq_self _ (show jsonWs '"' = false by decide)
          rw [hws]
          have hhead : (serializeFields (JsonFields.cons k w tl) ++ rest).head? = some '"' := by
            rw [hR]
            simp
          rw [if_neg (by rw [hhead]; simp)]
          rw [ihf (JsonFields.cons k w tl) rest
              (by intro hcon; exact JsonFields.noConfusion hcon)
              (by simp only [sizeJson] at hs; omega)]
          rfl
    · intro items rest hne hs
      cases items with
      | nil => exact absurd rfl hne
      | cons v tl =>
        cases tl with
        | nil =>
          show parseItems (f + 1) ((serializeJson v ++ [']']) ++ rest) = _
          have harr : (serializeJson v ++ [']']) ++ rest = serializeJson v ++ ']' :: rest := by
            simp
          rw [harr, parseItems_succ_eq,
              ihv v (']' :: rest) (by simp only [sizeItems] at hs; omega)
                (show Char.isDigit ']' = false by decide)]
          dsimp only
          rw [skipWs_eq_self (']' :: rest) (show jsonWs ']' = false by decide)]
          rw [if_neg (by simp), if_pos (show (']' :: rest).head? = some ']' by rfl)]
          rfl
        | cons w tl2 =>
          show parseItems (f + 1)
              ((serializeJson v ++ ',' :: serializeItems (JsonItems.cons w tl2)) ++ rest) = _
          have harr : (serializeJson v ++ ',' :: serializeItems (JsonItems.cons w tl2)) ++ rest =
              serializeJson v ++ ',' :: (serializeItems (JsonItems.cons w tl2) ++ rest) := by
            simp
          rw [harr, parseItems_succ_eq,
              ihv v (',' :: (serializeItems (JsonItems.cons w tl2) ++ rest))
                (by simp only [sizeItems] at hs; omega)
                (show Char.isDigit ',' = false by decide)]
          dsimp only
          rw [skipWs_eq_self (',' :: (serializeItems (JsonItems.cons w tl2) ++ rest))
              (show jsonWs ',' = false by decide)]
          rw [if_pos (show (',' :: (serializeItems (JsonItems.cons w tl2) ++ rest)).head? = some ','
                from rfl)]
          rw [List.tail_cons, skipWs_serializeItems,
              ihi (JsonItems.cons w tl2) rest
                (by intro hcon; exact JsonItems.noConfusion hcon)
                (by simp only [sizeItems] at hs ⊢; omega)]
          rfl
    · intro fields rest hne hs
      cases fields with
      | nil => exact absurd rfl hne
      | cons k v tl =>
        cases tl with
        | nil =>
          show parseFields (f + 1)
              (('"' :: (escapeStr k ++ '"' :: ':' :: (serializeJson v ++ ['\x7d']))) ++ rest) = _
          have harr : ('"' :: (escapeStr k ++ '"' :: ':' :: (serializeJson v ++ ['\x7d']))) ++ rest =
              '"' :: (escapeStr k ++ '"' :: (':' :: (serializeJson v ++ '\x7d' :: rest))) := by
            simp
          rw [harr, parseFields_succ_eq, if_pos rfl, parseStringBody_escape]
          dsimp only
          rw [skipWs_eq_self (':' :: (serializeJson v ++ '\x7d' :: rest))
              (show jsonWs ':' = false by decide)]
          rw [if_pos (show (':' :: (serializeJson v ++ '\x7d' :: rest)).head? = some ':'
                from rfl)]
          rw [List.tail_cons, skipWs_serialize,
              ihv v ('\x7d' :: rest) (by simp only [sizeFields] at hs; omega)
                (show Char.isDigit '\x7d' = false by decide)]
          dsimp only
          rw [skipWs_eq_self ('\x7d' :: rest) (show jsonWs '\x7d' = false by decide)]
          rw [if_neg (by simp), if_pos (show ('\x7d' :: rest).head? = some '\x7d' by rfl)]
          rfl
        | cons k2 w tl2 =>
          show parseFields (f + 1)
              (('"' :: (escapeStr k ++ '"' :: ':' ::
                (serializeJson v ++ ',' :: serializeFields (JsonFields.cons k2 w tl2)))) ++ rest) = _
          have harr : ('"' :: (escapeStr k ++ '"' :: ':' ::
                (serializeJson v ++ ',' :: serializeFields (JsonFields.cons k2 w tl2)))) ++ rest =
              '"' :: (escapeStr k ++ '"' :: (':' ::
                (serializeJson v ++ ',' ::
                  (serializeFields (JsonFields.cons k2 w tl2) ++ rest)))) := by
            simp
          rw [harr, parseFields_succ_eq, if_pos rfl, parseStringBody_escape]
          dsimp only
          rw [skipWs_eq_self (':' :: (serializeJson v ++ ',' ::
                (serializeFields (JsonFields.cons k2 w tl2) ++ rest)))
              (show jsonWs ':' = false by decide)]
          rw [if_pos (show (':' :: (serializeJson v ++ ',' ::
                (serializeFields (JsonFields.cons k2 w tl2) ++ rest))).head? = some ':'
                from rfl)]
          rw [List.tail_cons, skipWs_serialize,
              ihv v (',' :: (serializeFields (JsonFields.cons k2 w tl2) ++ rest))
                (by simp only [sizeFields] at hs; omega)
                (show Char.isDigit ',' = false by decide)]
          dsimp only
          rw [skipWs_eq_self (',' :: (serializeFields (JsonFields.cons k2 w tl2) ++ rest))
              (show jsonWs ',' = false by decide)]
          rw [if_pos (show (',' :: (serializeFields (JsonFields.cons k2 w tl2) ++ rest)).head? =
                some ',' from rfl)]
          rw [List.tail_cons]
          have hfshape : ∃ R, serializeFields (JsonFields.cons k2 w tl2) = '"' :: R := by
            cases tl2 with
            | nil => exact ⟨escapeStr k2 ++ '"' :: ':' :: (serializeJson w ++ ['\x7d']), rfl⟩
            | cons k3 x y =>
              exact ⟨escapeStr k2 ++ '"' :: ':' ::
                (serializeJson w ++ ',' :: serializeFields (JsonFields.cons k3 x y)), rfl⟩
          obtain ⟨R, hR⟩ := hfshape
          have hws : skipWs (serializeFields (JsonFields.cons k2 w tl2) ++ rest) =
              serializeFields (JsonFields.cons k2 w tl2) ++ rest := by
            rw [hR]
            exact skipWs_eq_self _ (show jsonWs '"' = false by decide)
          rw [hws,
              ihf (JsonFields.cons k2 w tl2) rest
                (by intro hcon; exact JsonFields.noConfusion hcon)
                (by simp only [sizeFields] at hs ⊢; omega)]
          rfl

theorem jsonParse_serializeJson (m : Json) : jsonParse (serializeJson m) = some m := by
  unfold jsonParse
  obtain ⟨c, cs, hrep, h1, _⟩ := serialize_head_facts m
  have hws : skipWs (serializeJson m) = serializeJson m := by
    rw [hrep]
    exact skipWs_eq_self _ h1
  rw [hws]
  have hfuel : sizeJson m ≤ (serializeJson m).length + 1 :=
    le_trans (sizeJson_le_len m) (by omega)
  have hpr := (parse_round ((serializeJson m).length + 1)).1 m [] hfuel trivial
  rw [List.append_nil] at hpr
  rw [hpr]
  dsimp only
  rw [if_pos (show skipWs ([] : List Char) = [] from rfl)]

/-- First occurrence of a pattern beginning with a character absent from the
text before it. -/
theorem subIdx_first (p pre suf : List Char) (a : Char)
    (h : ∀ c ∈ pre, c ≠ a) :
    subIdx (a :: p) (pre ++ a :: p ++ suf) = some pre.length := by
  induction pre with
  | nil =>
    show subIdx (a :: p) ((a :: p) ++ suf) = some 0
    rw [List.cons_append]
    simp only [subIdx]
    rw [if_pos (List.isPrefixOf_iff_prefix.mpr
      (by rw [← List.cons_append]; exact List.prefix_append (a :: p) suf))]
  | cons c pre2 ih =>
    show subIdx (a :: p) (c :: (pre2 ++ a :: p ++ suf)) = some (pre2.length + 1)
    simp only [subIdx]
    rw [if_neg, ih (fun x hx => h x (by simp [hx]))]
    · rfl
    · intro hpre
      obtain ⟨t, ht⟩ := List.isPrefixOf_iff_prefix.mp hpre
      rw [List.cons_append] at ht
      injection ht with h1 _
      exact h c (by simp) h1.symm

theorem takeWhile_all {p : Char → Bool} (l : List Char) (h : ∀ c ∈ l, p c = true) :
    l.takeWhile p = l := by
  have := takeWhile_append_all l [] h trivial
  rwa [List.append_nil] at this

theorem tryHeaderHere_cl (digits : List Char) (hne : digits ≠ [])
    (hd : ∀ c ∈ digits, c.isDigit = true) :
    tryHeaderHere ("Content-Length: ".data ++ digits) = some (digitsVal digits) := by
  have hpre : "content-length:".data.isPrefixOf
      (("Content-Length: ".data ++ digits).map toLowerAscii) = true := by
    rw [List.map_append]
    have hconst : ("Content-Length: ".data).map toLowerAscii =
        "content-length:".data ++ [' '] := by decide
    rw [hconst, List.append_assoc]
    exact List.isPrefixOf_iff_prefix.mpr (List.prefix_append _ _)
  have hdrop : ("Content-Length: ".data ++ digits).drop ("content-length:".data).length =
      ' ' :: digits := by
    have hsplit : "Content-Length: ".data = "Content-Length:".data ++ [' '] := by decide
    have hlen : ("content-length:".data).length = ("Content-Length:".data).length := by decide
    rw [hsplit, List.append_assoc, hlen, List.drop_left]
    rfl
  obtain ⟨c0, cs0, hd0⟩ : ∃ c0 cs0, digits = c0 :: cs0 := by
    cases digits with
    | nil => exact absurd rfl hne
    | cons a b => exact ⟨a, b, rfl⟩
  have hc0 : c0.isDigit = true := hd c0 (by simp [hd0])
  have hws1 : (' ' :: digits).takeWhile jsWs = [' '] := by
    rw [List.takeWhile_cons_of_pos (by decide : jsWs ' ' = true)]
    have : digits.takeWhile jsWs = [] := by
      apply takeWhile_nil_of_head
      rw [hd0]
      exact (isDigit_facts hc0).1
    rw [this]
  have hdig : digits.takeWhile Char.isDigit = digits := takeWhile_all digits hd
  have hemp : digits.isEmpty = false := by
    rw [hd0]
    rfl
  simp only [tryHeaderHere, hpre, if_true, hdrop, hws1]
  have hdrop1 : List.drop ([' '] : List Char).length (' ' :: digits) = digits := rfl
  simp only [hdrop1, hdig, hemp]
  rw [List.drop_length]
  simp

theorem execHeaderRegex_cl (digits : List Char) (hne : digits ≠ [])
    (hd : ∀ c ∈ digits, c.isDigit = true) :
    execHeaderRegex ("Content-Length: ".data ++ digits) = some (digitsVal digits) := by
  unfold execHeaderRegex
  rw [tryHeaderHere_cl digits hne hd]

/-- Newline-mode round trip at the decode-loop level. -/
theorem processNewlineBuffer_encode (m : Json) :
    processNewlineBuffer (serializeJson m ++ ['\n']) = ([], [.message m]) := by
  have hnl := (serializeJson_no_ctrl m).1
  have hcr := (serializeJson_no_ctrl m).2
  have hidx : (serializeJson m ++ ['\n']).findIdx? (· == '\n') =
      some (serializeJson m).length := findIdx?_append_nl (serializeJson m) [] hnl
  have htake : (serializeJson m ++ ['\n']).take (serializeJson m).length = serializeJson m := by
    have := List.take_left (serializeJson m) ['\n']
    exact this
  obtain ⟨c, cs, hrep, _, h2, _⟩ := serialize_head_facts m
  have hline : jsTrim (stripTrailingCR ((serializeJson m ++ ['\n']).take
      (serializeJson m).length)) = serializeJson m := by
    rw [htake, stripTrailingCR_eq_self _ hcr]
    apply jsTrim_eq_self
    · rw [hrep]
      exact h2
    · exact serialize_last_facts m
  have hne : (jsTrim (stripTrailingCR ((serializeJson m ++ ['\n']).take
      (serializeJson m).length))).isEmpty = false := by
    rw [hline, hrep]
    rfl
  rw [processNL_dispatch _ _ hidx hne, hline]
  have hdrop : (serializeJson m ++ ['\n']).drop ((serializeJson m).length + 1) = [] :=
    drop_append_cons (serializeJson m) '\n' []
  rw [hdrop, processNL_no_nl [] rfl]
  unfold dispatchJsonLine
  rw [jsonParse_serializeJson]

/-- Content-length-mode round trip at the decode-loop level. -/
theorem processContentLengthBuffer_encode (m : Json) :
    processContentLengthBuffer
      ("Content-Length: ".data ++ natDigits (byteLength (serializeJson m)) ++
        "\r\n\r\n".data ++ serializeJson m) = ([], [.message m]) := by
  set payload := serializeJson m with hpay
  set n := byteLength payload with hn
  set hdr := "Content-Length: ".data ++ natDigits n with hhdr
  have hnocr : ∀ c ∈ hdr, c ≠ '\r' := by
    intro c hc
    rw [hhdr] at hc
    rcases List.mem_append.mp hc with hc1 | hc2
    · intro hcc
      subst hcc
      revert hc1
      decide
    · have hdig := natDigits_all_digits n c hc2
      exact (isDigit_facts hdig).2.2.2.2.2.2.2.1
  have hsub : subIdx "\r\n\r\n".data (hdr ++ "\r\n\r\n".data ++ payload) = some hdr.length := by
    show subIdx ('\r' :: "\n\r\n".data) (hdr ++ '\r' :: "\n\r\n".data ++ payload) =
      some hdr.length
    exact subIdx_first "\n\r\n".data hdr payload '\r' hnocr
  have hdelim : delimSearch (hdr ++ "\r\n\r\n".data ++ payload) = some (hdr.length, 4) := by
    unfold delimSearch
    rw [hsub]
  have htake : (hdr ++ "\r\n\r\n".data ++ payload).take hdr.length = hdr := by
    rw [List.append_assoc]
    exact List.take_left hdr _
  have hexec : execHeaderRegex ((hdr ++ "\r\n\r\n".data ++ payload).take hdr.length) = some n := by
    rw [htake, hhdr, execHeaderRegex_cl (natDigits n) (natDigits_ne_nil n)
        (natDigits_all_digits n), digitsVal_natDigits]
  have hdropbody : (hdr ++ "\r\n\r\n".data ++ payload).drop (hdr.length + 4) = payload := by
    have hlen4 : (hdr ++ "\r\n\r\n".data).length = hdr.length + 4 := by simp
    rw [← hlen4, List.drop_left]
  have hfull : ¬ byteLength ((hdr ++ "\r\n\r\n".data ++ payload).drop (hdr.length + 4)) < n := by
    rw [hdropbody]
    omega
  rw [processCL_dispatch _ hdr.length 4 n hdelim hexec hfull, hdropbody,
      dropBytes_full payload n (by omega), takeBytes_full payload n (by omega),
      processCL_no_delim [] rfl]
  unfold dispatchJsonLine
  rw [hpay, jsonParse_serializeJson]

/-! ### Claim C4: framing round trip -/

/-- C4: encoding any JSON-RPC message with `send`'s encoder and feeding the
bytes to the decode loop of the same framing mode dispatches exactly one
message deeply equal to the original, and consumes the whole buffer — for
both content-length framing and newline framing. -/
theorem c4_framing_round_trip :
    ∀ (m : Json) (mode : FramingMode),
      processBuffer mode (encodeMsg (some mode) m) = ([], [TransportEvent.message m]) := by
  intro m mode
  cases mode with
  | newline => exact processNewlineBuffer_encode m
  | contentLength => exact processContentLengthBuffer_encode m

/-! ### Claim C5: malformed-message resilience -/

/-- C5: a dispatched text whose JSON parse fails produces exactly one
`onerror` event identified by the offending text and no `onmessage` event;
in newline mode a malformed line contributes exactly one error event and
decoding continues with the remaining buffer; the concrete scenario of a
valid message, a garbage line and a valid message yields two messages and
one error, in input order. -/
theorem c5_malformed_resilience :
    (∀ text : List Char, jsonParse text = none → dispatchJsonLine text = .parseError text) ∧
    (∀ (line rest : List Char), '\n' ∉ line →
       (jsTrim (stripTrailingCR line)).isEmpty = false →
       jsonParse (jsTrim (stripTrailingCR line)) = none →
       processNewlineBuffer (line ++ '\n' :: rest) =
         ((processNewlineBuffer rest).1,
          .parseError (jsTrim (stripTrailingCR line)) :: (processNewlineBuffer rest).2)) ∧
    processNewlineBuffer "\x7b\"id\":2\x7d\ngarbage\n\x7b\"id\":3\x7d\n".data =
      ([], [.message (.obj (.cons "id".data (.num 2) .nil)),
            .parseError "garbage".data,
            .message (.obj (.cons "id".data (.num 3) .nil))]) := by
  refine ⟨?_, ?_, ?_⟩
  · intro text h
    unfold dispatchJsonLine
    rw [h]
  · intro line rest hnl hne hparse
    have hidx : (line ++ '\n' :: rest).findIdx? (· == '\n') = some line.length :=
      findIdx?_append_nl line rest hnl
    have htake : (line ++ '\n' :: rest).take line.length = line := List.take_left line _
    have hne2 : (jsTrim (stripTrailingCR ((line ++ '\n' :: rest).take line.length))).isEmpty
        = false := by
      rw [htake]
      exact hne
    rw [processNL_dispatch _ _ hidx hne2, htake, drop_append_cons]
    unfold dispatchJsonLine
    rw [hparse]
  · rw [processNL_dispatch "\x7b\"id\":2\x7d\ngarbage\n\x7b\"id\":3\x7d\n".data 8
        (by decide) (by decide)]
    rw [show List.drop 9 "\x7b\"id\":2\x7d\ngarbage\n\x7b\"id\":3\x7d\n".data =
        "garbage\n\x7b\"id\":3\x7d\n".data from by decide]
    rw [processNL_dispatch "garbage\n\x7b\"id\":3\x7d\n".data 7 (by decide) (by decide)]
    rw [show List.drop 8 "garbage\n\x7b\"id\":3\x7d\n".data = "\x7b\"id\":3\x7d\n".data
        from by decide]
    rw [processNL_dispatch "\x7b\"id\":3\x7d\n".data 8 (by decide) (by decide)]
    rw [show List.drop 9 "\x7b\"id\":3\x7d\n".data = ([] : List Char) from by decide]
    rw [processNL_no_nl [] rfl]
    decide

/-- Witness for C5: one garbage line dispatches exactly one error event
carrying the offending text, and nothing else. -/
theorem c5_malformed_resilience_witness :
    processNewlineBuffer "garbage\n".data = ([], [.parseError "garbage".data]) := by
  have h := c5_malformed_resilience.2.1 "garbage".data [] (by decide) (by decide) (by decide)
  rw [show "garbage\n".data = "garbage".data ++ '\n' :: [] from rfl, h,
      processNL_no_nl [] rfl]
  decide

/-! ### Claim C6: idempotent close -/

/-- C6 is refuted on the stdio transport: `close()` evaluates
`this.onclose?.()` unconditionally on every call, so two consecutive
`close()` calls on a started transport invoke the `onclose` callback twice,
not at most once. -/
theorem c6_counterexample :
    ¬ (((close { initTransport with started := true, listening := true }).2 ++
        (close (close { initTransport with started := true, listening := true }).1).2).count
          TransportEvent.oncloseCall ≤ 1) := by decide

/-- C6 (amended): calling `close()` twice never throws (the model is a total
function) and is idempotent on the transport state — but each of the two
calls invokes the `onclose` callback once, so the callback fires twice
across both calls, not at most once. -/
theorem c6_close_behavior :
    ∀ s : TransportState,
      (close s).2 = [.oncloseCall] ∧
      (close (close s).1).2 = [.oncloseCall] ∧
      (close (close s).1).1 = (close s).1 := by
  intro s
  exact ⟨rfl, rfl, rfl⟩

/-! ### Claim C7: composite fan-out -/

/-- C7: a registration on the composite proxy is replicated to the stdio
proxy and then the tunnel proxy; when the name is fresh on both it succeeds
and both registries contain the entry; registering an already-registered
name fails and changes neither registry (the stdio proxy throws before
anything is added). -/
theorem c7_composite_fanout :
    ∀ (k : Capability) (s : CompositeState) (name : List Char),
      (name ∉ capNames k s.stdio → name ∉ capNames k s.tunnel →
        (compositeRegister k s name).2.2 = none ∧
        (compositeRegister k s name).2.1 = [(.stdio, name), (.tunnel, name)] ∧
        name ∈ capNames k (compositeRegister k s name).1.stdio ∧
        name ∈ capNames k (compositeRegister k s name).1.tunnel) ∧
      (name ∈ capNames k s.stdio →
        (compositeRegister k s name).2.2 = some .duplicateName ∧
        (compositeRegister k s name).1 = s ∧
        (compositeRegister k s name).2.1 = [(.stdio, name)]) := by
  intro k s name
  constructor
  · intro h1 h2
    cases k <;>
      · simp only [capNames] at h1 h2
        simp [compositeRegister, registerCap, capNames, h1, h2]
  · intro h1
    cases k <;>
      · simp only [capNames] at h1
        simp [compositeRegister, registerCap, capNames, h1]

/-- Witness for C7: registering `t1` on an empty composite succeeds on both
registries; a second registration of `t1` is rejected and changes nothing. -/
theorem c7_composite_fanout_witness :
    (compositeRegister Capability.tool initComposite "t1".data).2.2 = none ∧
    (compositeRegister Capability.tool
        (compositeRegister Capability.tool initComposite "t1".data).1 "t1".data).2.2 =
      some RegistrationError.duplicateName ∧
    (compositeRegister Capability.tool
        (compositeRegister Capability.tool initComposite "t1".data).1 "t1".data).1 =
      (compositeRegister Capability.tool initComposite "t1".data).1 := by
  refine ⟨((c7_composite_fanout .tool initComposite "t1".data).1 (by decide) (by decide)).1,
          ?_, ?_⟩
  · exact ((c7_composite_fanout .tool
      (compositeRegister Capability.tool initComposite "t1".data).1 "t1".data).2
      (by decide)).1
  · exact ((c7_composite_fanout .tool
      (compositeRegister Capability.tool initComposite "t1".data).1 "t1".data).2
      (by decide)).2.1

/-! ### Claim C8: composite close tolerance -/

/-- C8 is refuted: the composite `close()` is `Promise.all` over the two
underlying closes, so when the stdio proxy's close rejects, the composite
`close()` rejects as well instead of tolerating the failure (both closes
are still initiated). -/
theorem c8_counterexample :
    (compositeClose (.error .closeError) (.ok ())).1 = (true, true) ∧
    (compositeClose (.error .closeError) (.ok ())).2 ≠ .ok () := by
  constructor
  · rfl
  · intro h
    cases h

/-- C8 (amended): the composite `close()` initiates `close()` on both
underlying proxies (one proxy's failure never aborts the other's close),
and resolves exactly when both underlying closes succeed; an individual
failure is not tolerated — it propagates as the composite rejection, the
stdio proxy's error taking precedence. -/
theorem c8_composite_close :
    ∀ (a b : Except CloseFailure Unit),
      (compositeClose a b).1 = (true, true) ∧
      ((compositeClose a b).2 = .ok () ↔ a = .ok () ∧ b = .ok ()) ∧
      (∀ e, a = .error e → (compositeClose a b).2 = .error e) := by
  intro a b
  refine ⟨rfl, ?_, ?_⟩
  · cases a with
    | error e => simp [compositeClose]
    | ok u =>
      cases u
      cases b with
      | error e2 => simp [compositeClose]
      | ok u2 => cases u2; simp [compositeClose]
  · intro e he
    subst he
    rfl

/-- Witness for C8: a failing stdio close propagates through the composite. -/
theorem c8_composite_close_witness :
    (compositeClose (.error .closeError) (.ok ())).2 = .error .closeError :=
  (c8_composite_close (.error .closeError) (.ok ())).2.2 .closeError rfl

/-! ### Claim C9: lifecycle errors -/

/-- C9 is refuted in its second half: after `close()`, `send()` is not
guarded — it proceeds and writes the Content-Length framed message instead
of failing fast (the transport records no closed state and `send` checks
none). -/
theorem c9_counterexample :
    start initTransport = .ok { initTransport with started := true, listening := true } ∧
    send (close { initTransport with started := true, listening := true }).1 (.num 1) true =
      (("Content-Length: 1\r\n\r\n1".data, .resolvedOnWrite), []) := by
  constructor
  · rfl
  · show ((encodeMsg none (.num 1), sendPromise true), []) = _
    have hser : serializeJson (Json.num 1) = ['1'] := by
      show intChars 1 = ['1']
      unfold intChars
      rw [if_neg (by omega)]
      show natDigits 1 = ['1']
      rw [natDigits_lt (by omega)]
      rfl
    have henc : encodeMsg none (.num 1) = "Content-Length: 1\r\n\r\n1".data := by
      show "Content-Length: ".data ++ natDigits (byteLength (serializeJson (Json.num 1))) ++
          "\r\n\r\n".data ++ serializeJson (Json.num 1) = _
      rw [hser]
      have hb : byteLength ['1'] = 1 := by decide
      rw [hb, natDigits_lt (by omega)]
      rfl
    rw [henc]
    rfl

/-- C9 (amended): a second `start()` after a successful `start()` throws the
descriptive already-started error, also after a `close()` (which leaves
`started` set); but operations after `close()` are not guarded — `send()`
proceeds normally, returning the framed message with no error. -/
theorem c9_lifecycle :
    ∀ (s s2 : TransportState) (m : Json) (w : Bool),
      (start s = .ok s2 → start s2 = .error .alreadyStarted) ∧
      (start s = .ok s2 → start (close s2).1 = .error .alreadyStarted) ∧
      send (close s).1 m w = ((encodeMsg (close s).1.framingMode m, sendPromise w), []) := by
  intro s s2 m w
  have hstart : start s = .ok s2 → s2.started = true := by
    intro h
    unfold start at h
    by_cases hs : s.started
    · rw [if_pos hs] at h
      cases h
    · rw [if_neg hs] at h
      cases h
      rfl
  refine ⟨?_, ?_, rfl⟩
  · intro h
    unfold start
    rw [if_pos (hstart h)]
  · intro h
    unfold start
    have : (close s2).1.started = s2.started := rfl
    rw [this, if_pos (hstart h)]

/-- Witness for C9 (amended): the started transport rejects a second
`start()`, and `send()` after `close()` still writes. -/
theorem c9_lifecycle_witness :
    start { initTransport with started := true, listening := true } = .error .alreadyStarted ∧
    send (close { initTransport with started := true, listening := true }).1 (.num 1) true =
      ((encodeMsg none (.num 1), .resolvedOnWrite), []) := by
  constructor
  · exact (c9_lifecycle initTransport { initTransport with started := true, listening := true }
      (.num 1) true).1 rfl
  · exact (c9_lifecycle { initTransport with started := true, listening := true }
      { initTransport with started := true, listening := true } (.num 1) true).2.2

/-! ### Claim C10: the send promise never rejects -/

/-- C10: the promise built in `send()` resolves immediately when the write
is accepted and on the next `drain` otherwise; it has no rejection path, and
`send` surfaces no `onerror` events; the transport subscribes to no stdout
events at all, so a stdout write error reaches neither the promise nor
`onerror`. -/
theorem c10_send_never_rejects :
    ∀ (s : TransportState) (m : Json) (w : Bool),
      sendPromise true = .resolvedOnWrite ∧
      sendPromise false = .resolvedOnDrain ∧
      (∀ e, sendPromise w ≠ .rejected e) ∧
      (send s m w).2 = [] ∧
      StreamListener.stdoutError ∉ startListeners := by
  intro s m w
  refine ⟨rfl, rfl, ?_, rfl, by decide⟩
  intro e
  cases w <;> simp [sendPromise]

/-- Witness for C10 at a concrete send. -/
theorem c10_send_never_rejects_witness :
    sendPromise true = .resolvedOnWrite ∧ (send initTransport (.num 1) true).2 = [] :=
  ⟨(c10_send_never_rejects initTransport (.num 1) true).1,
   (c10_send_never_rejects initTransport (.num 1) true).2.2.2.1⟩

end McpTunnel
